import Mathlib

/-
Verification of the reapbid autopilot round-settlement engine
(src/functions/src/autopilot.ts) against its natural-language specification.

The TypeScript source is shallowly embedded:
  * JS objects keyed by player id become association lists
    (List (String × _)); JS object keys are unique, which appears as
    Nodup hypotheses on the key list.
  * JS numbers carrying bids, costs and profits become ℚ; timestamps
    become Nat (with Int used where the source can subtract timestamps).
  * null / undefined become Option.
  * A Firebase multi-path update object becomes a List UpdateEntry,
    one entry per path written, applied left to right (later entries
    for the same path win, exactly as later assignments to the same
    key of the JS updates object win).
  * The imported market-model functions calculateAllMarketShares /
    calculateAllProfits live in src/utils/gameCalculations.ts, which is
    not part of the analyzed sources; the settlement engine is therefore
    parameterized over them (CalcShares / CalcProfits), and the logit
    model itself is modelled from the spec separately for the numeric
    claim.
-/

set_option maxHeartbeats 1000000

namespace Reapbid

/-- Player record (src/types/game.ts as used by autopilot.ts):
name, currentBid (null = no bid), hasSubmittedBid, lastBidTime, isTimedOut. -/
structure Player where
  name : String
  currentBid : Option ℚ
  hasSubmittedBid : Bool
  lastBidTime : Option Nat
  isTimedOut : Bool
  deriving DecidableEq

/-- RoundResult built by processGameRound: round number, resolved bids,
market shares, profits, timestamp. -/
structure RoundResult where
  round : Nat
  bids : List (String × ℚ)
  marketShares : List (String × ℚ)
  profits : List (String × ℚ)
  timestamp : Nat
  deriving DecidableEq

/-- Autopilot flag: enabled, lastUpdateTime (null when disabled). -/
structure AutopilotState where
  enabled : Bool
  lastUpdateTime : Option Nat
  deriving DecidableEq

/-- GameState as read and written by the autopilot functions.
bestRoundProfit is Option ℚ because the source initializes the best-round
fold at -Infinity (modelled as none). -/
structure GameState where
  hasGameStarted : Bool
  isActive : Bool
  isEnded : Bool
  currentRound : Nat
  totalRounds : Nat
  roundTimeLimit : Nat
  roundStartTime : Option Nat
  minBid : ℚ
  maxBid : ℚ
  costPerUnit : ℚ
  players : Option (List (String × Player))
  roundBids : Option (List (String × ℚ))
  roundHistory : List (Nat × RoundResult)
  autopilot : Option AutopilotState
  totalProfit : ℚ
  averageMarketShare : ℚ
  bestRound : Nat
  bestRoundProfit : Option ℚ
  endTime : Option Nat
  deriving DecidableEq

/-- The stored game document: top-level status and updatedAt plus the
embedded gameState (DatabaseGame). -/
structure Game where
  status : String
  updatedAt : Nat
  gameState : GameState
  deriving DecidableEq

/-- First value bound to key k in an association list (JS object read). -/
def lookupA {κ α : Type} [DecidableEq κ] (l : List (κ × α)) (k : κ) : Option α :=
  (l.find? (fun kv => decide (kv.1 = k))).map (fun kv => kv.2)

/-- Rewrite the value at key k (Firebase update of an existing child path). -/
def setA {κ α : Type} [DecidableEq κ] (l : List (κ × α)) (k : κ) (f : α → α) :
    List (κ × α) :=
  l.map (fun kv => if kv.1 = k then (kv.1, f kv.2) else kv)

/-- Set key k to v, appending the key when absent (Firebase set at a child
path that may not exist yet, used for roundHistory indices). -/
def upsertA {κ α : Type} [DecidableEq κ] (l : List (κ × α)) (k : κ) (v : α) :
    List (κ × α) :=
  if l.any (fun kv => decide (kv.1 = k)) then
    l.map (fun kv => if kv.1 = k then (kv.1, v) else kv)
  else l ++ [(k, v)]

@[simp] theorem lookupA_nil {κ α : Type} [DecidableEq κ] (k : κ) :
    lookupA ([] : List (κ × α)) k = none := rfl

theorem lookupA_cons {κ α : Type} [DecidableEq κ] (kv : κ × α) (l : List (κ × α)) (k : κ) :
    lookupA (kv :: l) k = if kv.1 = k then some kv.2 else lookupA l k := by
  by_cases h : kv.1 = k <;> simp [lookupA, List.find?, h]

theorem lookupA_append {κ α : Type} [DecidableEq κ] (l1 l2 : List (κ × α)) (k : κ) :
    lookupA (l1 ++ l2) k =
      (match lookupA l1 k with
       | some v => some v
       | none => lookupA l2 k) := by
  induction l1 with
  | nil => simp
  | cons kv rest ih =>
    by_cases h : kv.1 = k <;> simp [lookupA_cons, h, ih]

theorem lookupA_setA_eq {κ α : Type} [DecidableEq κ] (l : List (κ × α)) (k : κ) (f : α → α) :
    lookupA (setA l k f) k = (lookupA l k).map f := by
  induction l with
  | nil => simp [setA]
  | cons kv rest ih =>
    by_cases h : kv.1 = k
    · simp [setA, lookupA_cons, h]
    · simpa [setA, lookupA_cons, h] using ih

@[simp] theorem setA_nil {κ α : Type} [DecidableEq κ] (k : κ) (f : α → α) :
    setA ([] : List (κ × α)) k f = [] := rfl

@[simp] theorem setA_cons {κ α : Type} [DecidableEq κ] (kv : κ × α) (l : List (κ × α))
    (k : κ) (f : α → α) :
    setA (kv :: l) k f = (if kv.1 = k then (kv.1, f kv.2) else kv) :: setA l k f := rfl

theorem lookupA_setA_ne {κ α : Type} [DecidableEq κ] (l : List (κ × α)) (k q : κ) (f : α → α)
    (h : k ≠ q) : lookupA (setA l k f) q = lookupA l q := by
  induction l with
  | nil => simp
  | cons kv rest ih =>
    by_cases hk : kv.1 = k
    · simp [lookupA_cons, hk, h, ih]
    · by_cases hq : kv.1 = q <;> simp [lookupA_cons, hk, hq, Ne.symm h, ih]

theorem lookupA_eq_none_of_not_any {κ α : Type} [DecidableEq κ] (l : List (κ × α)) (k : κ)
    (h : l.any (fun kv => decide (kv.1 = k)) = false) : lookupA l k = none := by
  induction l with
  | nil => rfl
  | cons kv rest ih =>
    simp only [List.any_cons, Bool.or_eq_false_iff, decide_eq_false_iff_not] at h
    simp [lookupA_cons, h.1, ih h.2]

theorem lookupA_upsertA_eq {κ α : Type} [DecidableEq κ] (l : List (κ × α)) (k : κ) (v : α) :
    lookupA (upsertA l k v) k = some v := by
  unfold upsertA
  by_cases hmem : l.any (fun kv => decide (kv.1 = k))
  · simp only [hmem, if_true]
    induction l with
    | nil => simp at hmem
    | cons kv rest ih =>
      by_cases h : kv.1 = k
      · simp [lookupA_cons, h]
      · have hr : rest.any (fun kv => decide (kv.1 = k)) := by
          simpa [List.any_cons, h] using hmem
        simpa [lookupA_cons, h] using ih hr
  · simp only [hmem, if_false]
    have hfalse : l.any (fun kv => decide (kv.1 = k)) = false := by
      cases hval : l.any (fun kv => decide (kv.1 = k)) with
      | false => rfl
      | true => exact absurd hval hmem
    have hnone : lookupA l k = none := lookupA_eq_none_of_not_any l k hfalse
    simp [lookupA_append, hnone, lookupA_cons]

/-- JS truthiness of an optional timestamp: null, undefined and 0 are falsy. -/
def truthyTime : Option Nat → Bool
  | none => false
  | some t => decide (t ≠ 0)

/-- The players object, defaulted to empty as in
const { players = {} } = gameState. -/
def playersOf (gs : GameState) : List (String × Player) :=
  gs.players.getD []

/-- playerIds.filter((id) => not players[id]?.isTimedOut) in processGameRound. -/
def activePairs (gs : GameState) : List (String × Player) :=
  (playersOf gs).filter (fun kv => !kv.2.isTimedOut)

/-- playerIds.filter((id) => players[id]?.isTimedOut) in processGameRound. -/
def timedOutPairs (gs : GameState) : List (String × Player) :=
  (playersOf gs).filter (fun kv => kv.2.isTimedOut)

/-- Object.values(players).filter((player) => player and not player.isTimedOut),
used by the quorum checks. -/
def activeValues (gs : GameState) : List Player :=
  ((playersOf gs).map (fun kv => kv.2)).filter (fun p => !p.isTimedOut)

/-- Resolved bid of an active player: currentBid when hasSubmittedBid and
currentBid is a valid number, else maxBid (autopilot.ts lines 49-61). -/
def resolveActiveBid (maxBid : ℚ) (p : Player) : ℚ :=
  if p.hasSubmittedBid && p.currentBid.isSome then p.currentBid.getD maxBid else maxBid

/-- The resolved-bid map built by processGameRound: active players first,
then timed-out players (whose stored numeric bid is kept, else maxBid). -/
def updatedBids (gs : GameState) : List (String × ℚ) :=
  (activePairs gs).map (fun kv => (kv.1, resolveActiveBid gs.maxBid kv.2))
  ++ (timedOutPairs gs).map (fun kv => (kv.1, kv.2.currentBid.getD gs.maxBid))

/-- Type of the imported calculateAllMarketShares (gameCalculations.ts,
not among the analyzed sources): bids to market shares. -/
abbrev CalcShares := List (String × ℚ) → List (String × ℚ)

/-- Type of the imported calculateAllProfits: bids, shares and costPerUnit
to profits. -/
abbrev CalcProfits := List (String × ℚ) → List (String × ℚ) → ℚ → List (String × ℚ)

/-- RoundResult assembled by processGameRound (first variant). -/
def roundResultOf (cs : CalcShares) (cp : CalcProfits) (gs : GameState) (now : Nat) :
    RoundResult :=
  let bids := updatedBids gs
  let shares := cs bids
  { round := gs.currentRound
    bids := bids
    marketShares := shares
    profits := cp bids shares gs.costPerUnit
    timestamp := now }

/-- One path of a Firebase multi-path update object, as written by the
autopilot functions. -/
inductive UpdateEntry where
  | playerBid (pid : String) (v : Option ℚ)
  | playerSubmitted (pid : String) (v : Bool)
  | roundHistoryAt (idx : Nat) (rr : RoundResult)
  | roundBids (v : Option (List (String × ℚ)))
  | roundStartTime (v : Option Nat)
  | currentRound (v : Nat)
  | isActive (v : Bool)
  | isEnded (v : Bool)
  | endTime (v : Nat)
  | status (v : String)
  | updatedAt (v : Nat)
  | totalProfit (v : ℚ)
  | bestRound (v : Nat)
  | bestRoundProfit (v : Option ℚ)
  | averageMarketShare (v : ℚ)
  deriving DecidableEq

/-- The updates object built by processGameRound (first variant,
updateDatabase = true): per-player resolved bid and submission flag.
Active players keep a valid submitted bid (and their flag), otherwise get
maxBid and hasSubmittedBid = false; timed-out players get their preserved
bid and their unchanged flag. -/
def processGameRoundUpdates (gs : GameState) : List UpdateEntry :=
  (activePairs gs).flatMap (fun kv =>
    if kv.2.hasSubmittedBid && kv.2.currentBid.isSome then
      [UpdateEntry.playerBid kv.1 kv.2.currentBid,
       UpdateEntry.playerSubmitted kv.1 kv.2.hasSubmittedBid]
    else
      [UpdateEntry.playerBid kv.1 (some gs.maxBid),
       UpdateEntry.playerSubmitted kv.1 false])
  ++ (timedOutPairs gs).flatMap (fun kv =>
    [UpdateEntry.playerBid kv.1 (some (kv.2.currentBid.getD gs.maxBid)),
     UpdateEntry.playerSubmitted kv.1 kv.2.hasSubmittedBid])

/-- Math.max(0, (gameState.currentRound or 1) - 1): the round-history index. -/
def roundIndexOf (gs : GameState) : Nat :=
  (if gs.currentRound = 0 then 1 else gs.currentRound) - 1

/-- The updates object built by advanceGameState: round history entry,
round-state reset, bid writes from the round result, and either the
end-of-game flags (currentRound >= totalRounds) or the advance to the next
round with a currentBid reset for non-timed-out players. -/
def advanceGameStateUpdates (gs : GameState) (rr : RoundResult) (now : Nat) :
    List UpdateEntry :=
  [UpdateEntry.roundHistoryAt (roundIndexOf gs) rr,
   UpdateEntry.roundBids none,
   UpdateEntry.roundStartTime none]
  ++ rr.bids.flatMap (fun kv => [UpdateEntry.playerBid kv.1 (some kv.2)])
  ++ (if gs.currentRound ≥ gs.totalRounds then
        [UpdateEntry.isEnded true,
         UpdateEntry.isActive false,
         UpdateEntry.endTime now,
         UpdateEntry.status "completed",
         UpdateEntry.updatedAt now]
      else
        [UpdateEntry.currentRound ((if gs.currentRound = 0 then 1 else gs.currentRound) + 1),
         UpdateEntry.isActive true]
        ++ (playersOf gs).flatMap (fun kv =>
             if !kv.2.isTimedOut then [UpdateEntry.playerBid kv.1 none] else []))

/-- Apply one update path to the stored game document. playerBid and
playerSubmitted rewrite the named child of an existing player node (all
pids written by the engine come from the players object itself). -/
def applyEntry (g : Game) (e : UpdateEntry) : Game :=
  match e with
  | UpdateEntry.playerBid pid v =>
    { g with gameState := { g.gameState with
        players := g.gameState.players.map
          (fun ps => setA ps pid (fun p => { p with currentBid := v })) } }
  | UpdateEntry.playerSubmitted pid v =>
    { g with gameState := { g.gameState with
        players := g.gameState.players.map
          (fun ps => setA ps pid (fun p => { p with hasSubmittedBid := v })) } }
  | UpdateEntry.roundHistoryAt idx rr =>
    { g with gameState := { g.gameState with
        roundHistory := upsertA g.gameState.roundHistory idx rr } }
  | UpdateEntry.roundBids v =>
    { g with gameState := { g.gameState with roundBids := v } }
  | UpdateEntry.roundStartTime v =>
    { g with gameState := { g.gameState with roundStartTime := v } }
  | UpdateEntry.currentRound v =>
    { g with gameState := { g.gameState with currentRound := v } }
  | UpdateEntry.isActive v =>
    { g with gameState := { g.gameState with isActive := v } }
  | UpdateEntry.isEnded v =>
    { g with gameState := { g.gameState with isEnded := v } }
  | UpdateEntry.endTime v =>
    { g with gameState := { g.gameState with endTime := some v } }
  | UpdateEntry.status v => { g with status := v }
  | UpdateEntry.updatedAt v => { g with updatedAt := v }
  | UpdateEntry.totalProfit v =>
    { g with gameState := { g.gameState with totalProfit := v } }
  | UpdateEntry.bestRound v =>
    { g with gameState := { g.gameState with bestRound := v } }
  | UpdateEntry.bestRoundProfit v =>
    { g with gameState := { g.gameState with bestRoundProfit := v } }
  | UpdateEntry.averageMarketShare v =>
    { g with gameState := { g.gameState with averageMarketShare := v } }

/-- One atomic multi-path write: all entries of one updates object. -/
def applyEntries (g : Game) (es : List UpdateEntry) : Game :=
  es.foldl applyEntry g

/-- The sequence of store writes performed by one handleAutopilot call:
first processGameRound's update, then advanceGameState's update.  Both are
computed from the gameState snapshot handleAutopilot received. -/
def handleAutopilotBatches (cs : CalcShares) (cp : CalcProfits) (gs : GameState)
    (now : Nat) : List (List UpdateEntry) :=
  [processGameRoundUpdates gs,
   advanceGameStateUpdates gs (roundResultOf cs cp gs now) now]

/-- The stored game after a full handleAutopilot settlement: the two update
batches applied in order. -/
def settleGame (cs : CalcShares) (cp : CalcProfits) (g : Game) (now : Nat) : Game :=
  let gs := g.gameState
  let g1 := applyEntries g (processGameRoundUpdates gs)
  applyEntries g1 (advanceGameStateUpdates gs (roundResultOf cs cp gs now) now)

/-- allPlayersSubmittedBids: false without a players object or with fewer
than 2 active players, else every active player has hasSubmittedBid = true. -/
def allPlayersSubmittedBids (gs : GameState) : Bool :=
  match gs.players with
  | none => false
  | some _ =>
    let active := activeValues gs
    if active.length < 2 then false
    else active.all (fun p => p.hasSubmittedBid)

/-- shouldProcessRound: falsy roundStartTime, players or roundTimeLimit is
never due; fewer than 2 active players is never due; otherwise due when the
elapsed time reaches roundTimeLimit seconds or all active players submitted. -/
def shouldProcessRound (gs : GameState) (currentTime : Nat) : Bool :=
  if truthyTime gs.roundStartTime = false ∨ gs.players = none ∨ gs.roundTimeLimit = 0 then
    false
  else
    let active := activeValues gs
    if active.length < 2 then false
    else
      let timeElapsed : Int := (currentTime : Int) - ((gs.roundStartTime.getD 0 : Nat) : Int)
      decide (timeElapsed ≥ (gs.roundTimeLimit : Int) * 1000) || allPlayersSubmittedBids gs

/-- The two per-game actions the scheduler can take in one tick. -/
inductive TickAction where
  | startRound
  | settle
  deriving DecidableEq

/-- Per-game decision of one processAutopilot tick (primary scheduler):
skip unless autopilot is enabled and the game has started and not ended;
start a round when roundStartTime is falsy; when the round is due, settle
and then chain into the next round only if the re-read state is not ended
and currentRound < totalRounds.  The re-read state is the settled state
(the settlement write has completed before the re-read). -/
def processGameTick (cs : CalcShares) (cp : CalcProfits) (g : Game) (now : Nat) :
    List TickAction :=
  let gs := g.gameState
  if ((gs.autopilot.map (fun a => a.enabled)).getD false) = false then []
  else if gs.hasGameStarted && !gs.isEnded then
    if truthyTime gs.roundStartTime = false then [TickAction.startRound]
    else if shouldProcessRound gs now then
      let u := (settleGame cs cp g now).gameState
      if !u.isEnded && decide (u.currentRound < u.totalRounds) then
        [TickAction.settle, TickAction.startRound]
      else [TickAction.settle]
    else []
  else []

/-- Resolved bids of the second processGameRound variant: every player
(timed-out or not) gets currentBid when validly submitted, else maxBid. -/
def updatedBids2 (gs : GameState) : List (String × ℚ) :=
  (playersOf gs).map (fun kv => (kv.1, resolveActiveBid gs.maxBid kv.2))

/-- RoundResult assembled by the second processGameRound variant. -/
def roundResult2Of (cs : CalcShares) (cp : CalcProfits) (gs : GameState) (now : Nat) :
    RoundResult :=
  let bids := updatedBids2 gs
  let shares := cs bids
  { round := gs.currentRound
    bids := bids
    marketShares := shares
    profits := cp bids shares gs.costPerUnit
    timestamp := now }

/-- acc[playerId] = (acc[playerId] or 0) + v on a JS object: bump the value
at the first occurrence of the key, appending the key when absent. -/
def bumpFirst : List (String × ℚ) → String → ℚ → List (String × ℚ)
  | [], pid, v => [(pid, v)]
  | kv :: rest, pid, v =>
    if kv.1 = pid then (kv.1, kv.2 + v) :: rest else kv :: bumpFirst rest pid v

/-- The allProfits fold of the second variant: per-player profit totals
accumulated over all rounds. -/
def allProfitsOf (rounds : List RoundResult) : List (String × ℚ) :=
  rounds.foldl (fun acc r => r.profits.foldl (fun a kv => bumpFirst a kv.1 kv.2) acc) []

/-- Sum of the values of a JS object (Object.values(x).reduce((s, v) => s + v, 0)). -/
def valuesSum (l : List (String × ℚ)) : ℚ :=
  (l.map (fun kv => kv.2)).sum

/-- Math.max over the values of an object; none models the -Infinity the
source gets for an empty object. -/
def maxOfValues (l : List (String × ℚ)) : Option ℚ :=
  l.foldl (fun m kv =>
    match m with
    | none => some kv.2
    | some x => some (max x kv.2)) none

/-- Strict greater-than where none is -Infinity. -/
def optGT : Option ℚ → Option ℚ → Bool
  | some x, some y => decide (x > y)
  | some _, none => true
  | none, _ => false

/-- The bestRound reduce of the second variant, starting from
round 0 / profit -Infinity. -/
def bestRoundOf (rounds : List RoundResult) : Nat × Option ℚ :=
  rounds.foldl (fun best r =>
    if optGT (maxOfValues r.profits) best.2 then (r.round, maxOfValues r.profits) else best)
    (0, none)

/-- averageMarketShare of the second variant: the flattened sum of all
market-share values divided by allRounds.length * playerCount (with the
source's "or 1" guard against a zero denominator). -/
def averageMarketShareOf (rounds : List RoundResult) (playerCount : Nat) : ℚ :=
  let totalRoundCount : Nat :=
    if rounds.length * playerCount = 0 then 1 else rounds.length * playerCount
  (rounds.flatMap (fun r => r.marketShares.map (fun kv => kv.2))).sum
    / (totalRoundCount : ℚ)

/-- Stored round-history values in order ([...(gameState.roundHistory or [])]). -/
def historyValues (gs : GameState) : List RoundResult :=
  gs.roundHistory.map (fun kv => kv.2)

/-- The single updates object built by the second processGameRound variant:
history entry, round-state reset, all-player bid/flag reset, then either the
end-of-game aggregate stats or the currentRound increment. -/
def processGameRound2Updates (cs : CalcShares) (cp : CalcProfits) (gs : GameState)
    (now : Nat) : List UpdateEntry :=
  let rr := roundResult2Of cs cp gs now
  [UpdateEntry.roundHistoryAt (roundIndexOf gs) rr,
   UpdateEntry.roundBids none,
   UpdateEntry.roundStartTime none]
  ++ (playersOf gs).flatMap (fun kv =>
       [UpdateEntry.playerSubmitted kv.1 false, UpdateEntry.playerBid kv.1 none])
  ++ (if gs.currentRound ≥ gs.totalRounds then
        let allRounds := historyValues gs ++ [rr]
        [UpdateEntry.isActive false,
         UpdateEntry.isEnded true,
         UpdateEntry.totalProfit (valuesSum (allProfitsOf allRounds)),
         UpdateEntry.bestRound (bestRoundOf allRounds).1,
         UpdateEntry.bestRoundProfit (bestRoundOf allRounds).2,
         UpdateEntry.averageMarketShare
           (averageMarketShareOf allRounds (playersOf gs).length),
         UpdateEntry.status "completed",
         UpdateEntry.updatedAt now]
      else
        [UpdateEntry.currentRound (gs.currentRound + 1)])

/-- The stored game after the second variant settles a round: its single
atomic update applied. -/
def settleGame2 (cs : CalcShares) (cp : CalcProfits) (g : Game) (now : Nat) : Game :=
  applyEntries g (processGameRound2Updates cs cp g.gameState now)

/-- One Event Monitor entry as far as the claims need it. -/
structure LogEvent where
  gameId : String
  action : String
  logStatus : String
  deriving DecidableEq

/-- Failure modes of the toggleAutopilot callable. -/
inductive ToggleError where
  | notAdmin
  | noGameId
  | toggleFailed
  deriving DecidableEq

/-- Result of one toggleAutopilot call: outcome, Event Monitor entries
written, and autopilot states written to the store.  storeOk models whether
the gameState/autopilot set succeeds.  The admin check and the gameId check
throw before the try block, so they produce neither a write nor a log. -/
def toggleAutopilotRun (isAdmin : Bool) (gameId : Option String) (enabled : Bool)
    (storeOk : Bool) (now : Nat) :
    Except ToggleError String × List LogEvent × List (String × AutopilotState) :=
  if isAdmin = false then (Except.error ToggleError.notAdmin, [], [])
  else
    match gameId with
    | none => (Except.error ToggleError.noGameId, [], [])
    | some gid =>
      if gid = "" then (Except.error ToggleError.noGameId, [], [])
      else if storeOk then
        (Except.ok ("Autopilot " ++ (if enabled then "enabled" else "disabled")
            ++ " for game " ++ gid),
         [{ gameId := gid, action := "toggle", logStatus := "success" }],
         [(gid, { enabled := enabled, lastUpdateTime := if enabled then some now else none })])
      else
        (Except.error ToggleError.toggleFailed,
         [{ gameId := gid, action := "toggle", logStatus := "failure" }],
         [])

/-- Modelled from the spec: calculateAllMarketShares of
src/utils/gameCalculations.ts is not among the analyzed sources.  Spec 4.1:
share of player i = exp(-alpha * bid i) / sum over j of exp(-alpha * bid j),
over all included players.  Real-valued idealization of the float code. -/
noncomputable def calculateAllMarketShares (alpha : ℝ) (bids : List (String × ℝ)) :
    List (String × ℝ) :=
  let total := (bids.map (fun kv => Real.exp (-(alpha * kv.2)))).sum
  bids.map (fun kv => (kv.1, Real.exp (-(alpha * kv.2)) / total))

/-- The path family an update entry writes to. -/
inductive PathKind where
  | playerBid
  | playerSubmitted
  | roundHistoryAt
  | roundBids
  | roundStartTime
  | currentRound
  | isActive
  | isEnded
  | endTime
  | status
  | updatedAt
  | totalProfit
  | bestRound
  | bestRoundProfit
  | averageMarketShare
  deriving DecidableEq

/-- Path family of an entry. -/
def kindOf : UpdateEntry → PathKind
  | UpdateEntry.playerBid _ _ => PathKind.playerBid
  | UpdateEntry.playerSubmitted _ _ => PathKind.playerSubmitted
  | UpdateEntry.roundHistoryAt _ _ => PathKind.roundHistoryAt
  | UpdateEntry.roundBids _ => PathKind.roundBids
  | UpdateEntry.roundStartTime _ => PathKind.roundStartTime
  | UpdateEntry.currentRound _ => PathKind.currentRound
  | UpdateEntry.isActive _ => PathKind.isActive
  | UpdateEntry.isEnded _ => PathKind.isEnded
  | UpdateEntry.endTime _ => PathKind.endTime
  | UpdateEntry.status _ => PathKind.status
  | UpdateEntry.updatedAt _ => PathKind.updatedAt
  | UpdateEntry.totalProfit _ => PathKind.totalProfit
  | UpdateEntry.bestRound _ => PathKind.bestRound
  | UpdateEntry.bestRoundProfit _ => PathKind.bestRoundProfit
  | UpdateEntry.averageMarketShare _ => PathKind.averageMarketShare

@[simp] theorem applyEntries_nil (g : Game) : applyEntries g [] = g := rfl

@[simp] theorem applyEntries_cons (g : Game) (e : UpdateEntry) (es : List UpdateEntry) :
    applyEntries g (e :: es) = applyEntries (applyEntry g e) es := rfl

theorem applyEntries_append (g : Game) (a b : List UpdateEntry) :
    applyEntries g (a ++ b) = applyEntries (applyEntries g a) b :=
  List.foldl_append applyEntry g a b

/-- An entry whose path family is not k leaves any k-independent projection
of the document unchanged; folding such entries does too. -/
theorem applyEntries_proj {α : Type} (p : Game → α) (k : PathKind)
    (hstep : ∀ (g : Game) (e : UpdateEntry), kindOf e ≠ k → p (applyEntry g e) = p g)
    (es : List UpdateEntry) (g : Game) (h : ∀ e ∈ es, kindOf e ≠ k) :
    p (applyEntries g es) = p g := by
  induction es generalizing g with
  | nil => rfl
  | cons e rest ih =>
    rw [applyEntries_cons, ih (applyEntry g e) (fun x hx => h x (List.mem_cons_of_mem e hx))]
    exact hstep g e (h e (List.mem_cons_self e rest))

theorem currentRound_applyEntries (es : List UpdateEntry) (g : Game)
    (h : ∀ e ∈ es, kindOf e ≠ PathKind.currentRound) :
    (applyEntries g es).gameState.currentRound = g.gameState.currentRound := by
  refine applyEntries_proj (fun g => g.gameState.currentRound) PathKind.currentRound ?_ es g h
  intro g e he
  cases e <;> simp [applyEntry, kindOf] at he ⊢

theorem isActive_applyEntries (es : List UpdateEntry) (g : Game)
    (h : ∀ e ∈ es, kindOf e ≠ PathKind.isActive) :
    (applyEntries g es).gameState.isActive = g.gameState.isActive := by
  refine applyEntries_proj (fun g => g.gameState.isActive) PathKind.isActive ?_ es g h
  intro g e he
  cases e <;> simp [applyEntry, kindOf] at he ⊢

theorem isEnded_applyEntries (es : List UpdateEntry) (g : Game)
    (h : ∀ e ∈ es, kindOf e ≠ PathKind.isEnded) :
    (applyEntries g es).gameState.isEnded = g.gameState.isEnded := by
  refine applyEntries_proj (fun g => g.gameState.isEnded) PathKind.isEnded ?_ es g h
  intro g e he
  cases e <;> simp [applyEntry, kindOf] at he ⊢

theorem status_applyEntries (es : List UpdateEntry) (g : Game)
    (h : ∀ e ∈ es, kindOf e ≠ PathKind.status) :
    (applyEntries g es).status = g.status := by
  refine applyEntries_proj (fun g => g.status) PathKind.status ?_ es g h
  intro g e he
  cases e <;> simp [applyEntry, kindOf] at he ⊢

theorem roundBids_applyEntries (es : List UpdateEntry) (g : Game)
    (h : ∀ e ∈ es, kindOf e ≠ PathKind.roundBids) :
    (applyEntries g es).gameState.roundBids = g.gameState.roundBids := by
  refine applyEntries_proj (fun g => g.gameState.roundBids) PathKind.roundBids ?_ es g h
  intro g e he
  cases e <;> simp [applyEntry, kindOf] at he ⊢

theorem roundStartTime_applyEntries (es : List UpdateEntry) (g : Game)
    (h : ∀ e ∈ es, kindOf e ≠ PathKind.roundStartTime) :
    (applyEntries g es).gameState.roundStartTime = g.gameState.roundStartTime := by
  refine applyEntries_proj (fun g => g.gameState.roundStartTime) PathKind.roundStartTime ?_ es g h
  intro g e he
  cases e <;> simp [applyEntry, kindOf] at he ⊢

theorem roundHistory_applyEntries (es : List UpdateEntry) (g : Game)
    (h : ∀ e ∈ es, kindOf e ≠ PathKind.roundHistoryAt) :
    (applyEntries g es).gameState.roundHistory = g.gameState.roundHistory := by
  refine applyEntries_proj (fun g => g.gameState.roundHistory) PathKind.roundHistoryAt ?_ es g h
  intro g e he
  cases e <;> simp [applyEntry, kindOf] at he ⊢

theorem totalProfit_applyEntries (es : List UpdateEntry) (g : Game)
    (h : ∀ e ∈ es, kindOf e ≠ PathKind.totalProfit) :
    (applyEntries g es).gameState.totalProfit = g.gameState.totalProfit := by
  refine applyEntries_proj (fun g => g.gameState.totalProfit) PathKind.totalProfit ?_ es g h
  intro g e he
  cases e <;> simp [applyEntry, kindOf] at he ⊢

theorem averageMarketShare_applyEntries (es : List UpdateEntry) (g : Game)
    (h : ∀ e ∈ es, kindOf e ≠ PathKind.averageMarketShare) :
    (applyEntries g es).gameState.averageMarketShare = g.gameState.averageMarketShare := by
  refine applyEntries_proj (fun g => g.gameState.averageMarketShare)
    PathKind.averageMarketShare ?_ es g h
  intro g e he
  cases e <;> simp [applyEntry, kindOf] at he ⊢

/-- Entries of the first settlement batch only touch player bid and
submission paths. -/
theorem kinds_processGameRoundUpdates (gs : GameState) :
    ∀ e ∈ processGameRoundUpdates gs,
      kindOf e = PathKind.playerBid ∨ kindOf e = PathKind.playerSubmitted := by
  intro e he
  simp only [processGameRoundUpdates, List.mem_append, List.mem_flatMap] at he
  rcases he with ⟨kv, _, hmem⟩ | ⟨kv, _, hmem⟩
  · split at hmem <;> simp at hmem <;>
      rcases hmem with h | h <;> subst h <;> simp [kindOf]
  · simp at hmem
    rcases hmem with h | h <;> subst h <;> simp [kindOf]

/-- Entries generated from the bid map of a round result are player-bid
entries. -/
theorem kinds_bidEntries (l : List (String × ℚ)) :
    ∀ e ∈ l.flatMap (fun kv => [UpdateEntry.playerBid kv.1 (some kv.2)]),
      kindOf e = PathKind.playerBid := by
  intro e he
  simp only [List.mem_flatMap] at he
  rcases he with ⟨kv, _, hmem⟩
  simp at hmem
  subst hmem
  simp [kindOf]

/-- Entries generated by the next-round bid reset are player-bid entries. -/
theorem kinds_resetEntries (l : List (String × Player)) :
    ∀ e ∈ l.flatMap (fun kv =>
        if !kv.2.isTimedOut then [UpdateEntry.playerBid kv.1 none] else []),
      kindOf e = PathKind.playerBid := by
  intro e he
  simp only [List.mem_flatMap] at he
  rcases he with ⟨kv, _, hmem⟩
  split at hmem <;> simp at hmem
  subst hmem
  simp [kindOf]

/-- The player record stored under gameState/players/pid. -/
def playerOf (g : Game) (pid : String) : Option Player :=
  match g.gameState.players with
  | none => none
  | some ps => lookupA ps pid

/-- The player id an entry writes to, if any. -/
def entryPid : UpdateEntry → Option String
  | UpdateEntry.playerBid q _ => some q
  | UpdateEntry.playerSubmitted q _ => some q
  | _ => none

/-- Effect of one entry on the record stored for player pid. -/
def stepPlayer (pid : String) (op : Option Player) (e : UpdateEntry) : Option Player :=
  match e with
  | UpdateEntry.playerBid q v =>
    if q = pid then op.map (fun p => { p with currentBid := v }) else op
  | UpdateEntry.playerSubmitted q v =>
    if q = pid then op.map (fun p => { p with hasSubmittedBid := v }) else op
  | _ => op

theorem playerOf_applyEntry (g : Game) (e : UpdateEntry) (pid : String) :
    playerOf (applyEntry g e) pid = stepPlayer pid (playerOf g pid) e := by
  cases e
  case playerBid q v =>
    cases hps : g.gameState.players with
    | none => simp [playerOf, applyEntry, hps, stepPlayer]
    | some ps =>
      by_cases hq : q = pid
      · subst hq
        simp [playerOf, applyEntry, hps, stepPlayer, lookupA_setA_eq]
      · simp [playerOf, applyEntry, hps, stepPlayer, hq, lookupA_setA_ne _ _ _ _ hq]
  case playerSubmitted q v =>
    cases hps : g.gameState.players with
    | none => simp [playerOf, applyEntry, hps, stepPlayer]
    | some ps =>
      by_cases hq : q = pid
      · subst hq
        simp [playerOf, applyEntry, hps, stepPlayer, lookupA_setA_eq]
      · simp [playerOf, applyEntry, hps, stepPlayer, hq, lookupA_setA_ne _ _ _ _ hq]
  all_goals rfl

theorem playerOf_applyEntries (g : Game) (es : List UpdateEntry) (pid : String) :
    playerOf (applyEntries g es) pid = es.foldl (stepPlayer pid) (playerOf g pid) := by
  induction es generalizing g with
  | nil => rfl
  | cons e rest ih =>
    rw [applyEntries_cons, ih, List.foldl_cons, playerOf_applyEntry]

theorem stepPlayer_skip (pid : String) (op : Option Player) (e : UpdateEntry)
    (h : entryPid e ≠ some pid) : stepPlayer pid op e = op := by
  cases e <;> simp_all [stepPlayer, entryPid]

theorem foldl_stepPlayer_skip (pid : String) (es : List UpdateEntry) (op : Option Player)
    (h : ∀ e ∈ es, entryPid e ≠ some pid) : es.foldl (stepPlayer pid) op = op := by
  induction es generalizing op with
  | nil => rfl
  | cons e rest ih =>
    rw [List.foldl_cons, stepPlayer_skip pid op e (h e (List.mem_cons_self e rest))]
    exact ih op (fun x hx => h x (List.mem_cons_of_mem e hx))

theorem find?_key_eq_none_of_not_mem {α : Type} (l : List (String × α)) (pid : String)
    (h : pid ∉ l.map Prod.fst) : l.find? (fun kv => decide (kv.1 = pid)) = none := by
  induction l with
  | nil => rfl
  | cons kv rest ih =>
    simp only [List.map_cons, List.mem_cons] at h
    push_neg at h
    simp [List.find?, Ne.symm h.1, ih h.2]

/-- Folding the entries generated from an association list with unique keys,
where the entries generated from a pair only address that pair's key, acts on
player pid exactly as the entries generated from pid's own pair (if any). -/
theorem foldl_stepPlayer_flatMap {β : Type} (pid : String) (f : String × β → List UpdateEntry)
    (l : List (String × β))
    (hf : ∀ kv : String × β, ∀ e ∈ f kv, ∀ q, entryPid e = some q → q = kv.1)
    (hnd : (l.map Prod.fst).Nodup) (op : Option Player) :
    (l.flatMap f).foldl (stepPlayer pid) op =
      (match l.find? (fun kv => decide (kv.1 = pid)) with
       | some kv => (f kv).foldl (stepPlayer pid) op
       | none => op) := by
  induction l generalizing op with
  | nil => rfl
  | cons kv rest ih =>
    simp only [List.map_cons, List.nodup_cons] at hnd
    rw [List.flatMap_cons, List.foldl_append]
    by_cases hq : kv.1 = pid
    · have hrest : (rest.flatMap f).foldl (stepPlayer pid) ((f kv).foldl (stepPlayer pid) op)
          = (f kv).foldl (stepPlayer pid) op := by
        refine foldl_stepPlayer_skip pid _ _ ?_
        intro e he heq
        rcases List.mem_flatMap.mp he with ⟨kv2, hkv2, he2⟩
        have hpk := hf kv2 e he2 pid heq
        have hm : kv2.1 ∈ rest.map Prod.fst := List.mem_map_of_mem Prod.fst hkv2
        rw [← hpk, ← hq] at hm
        exact hnd.1 hm
      rw [hrest]
      simp [List.find?, hq]
    · have hkv : (f kv).foldl (stepPlayer pid) op = op := by
        refine foldl_stepPlayer_skip pid _ _ ?_
        intro e he heq
        exact hq ((hf kv e he pid heq).symm)
      rw [hkv, ih hnd.2]
      simp [List.find?, hq]

theorem find?_key_of_lookupA {α : Type} (l : List (String × α)) (pid : String) (b : α)
    (h : lookupA l pid = some b) : l.find? (fun kv => decide (kv.1 = pid)) = some (pid, b) := by
  unfold lookupA at h
  cases hf : l.find? (fun kv => decide (kv.1 = pid)) with
  | none => rw [hf] at h; exact absurd h (by simp)
  | some kv =>
    rw [hf] at h
    have hk : kv.1 = pid := by
      have := List.find?_some hf
      simpa using this
    have hv : kv.2 = b := by simpa using h
    cases kv
    simp_all

theorem lookupA_eq_none_of_not_mem {α : Type} (l : List (String × α)) (pid : String)
    (h : pid ∉ l.map Prod.fst) : lookupA l pid = none := by
  unfold lookupA
  rw [find?_key_eq_none_of_not_mem l pid h]
  rfl

/-- In a list with unique keys, filtering then finding pid gives pid's pair
exactly when the filter keeps it. -/
theorem find?_filter_nodup (ps : List (String × Player)) (pid : String) (p : Player)
    (Q : String × Player → Bool) (hnd : (ps.map Prod.fst).Nodup)
    (hp : lookupA ps pid = some p) :
    (ps.filter Q).find? (fun kv => decide (kv.1 = pid)) =
      (if Q (pid, p) then some (pid, p) else none) := by
  induction ps with
  | nil => simp [lookupA] at hp
  | cons kv rest ih =>
    simp only [List.map_cons, List.nodup_cons] at hnd
    by_cases hq : kv.1 = pid
    · have hpv : kv.2 = p := by
        rw [lookupA_cons, if_pos hq] at hp
        simpa using hp
      have hkvp : kv = (pid, p) := by cases kv; simp_all
      subst hkvp
      by_cases hQ : Q (pid, p)
      · rw [List.filter_cons, if_pos hQ, List.find?_cons_of_pos _ (by simp), if_pos hQ]
      · rw [List.filter_cons, if_neg hQ, if_neg hQ]
        refine List.find?_eq_none.mpr ?_
        intro x hx
        simp only [decide_eq_true_eq]
        intro hxe
        have hm : x.1 ∈ rest.map Prod.fst :=
          List.mem_map_of_mem Prod.fst (List.mem_of_mem_filter hx)
        rw [hxe] at hm
        exact hnd.1 hm
    · rw [lookupA_cons, if_neg hq] at hp
      by_cases hQ : Q kv
      · rw [List.filter_cons, if_pos hQ, List.find?_cons_of_neg _ (by simp [hq])]
        exact ih hnd.2 hp
      · rw [List.filter_cons, if_neg hQ]
        exact ih hnd.2 hp

/-- lookupA version of the filter lemma. -/
theorem lookupA_filter_nodup (ps : List (String × Player)) (pid : String) (p : Player)
    (Q : String × Player → Bool) (hnd : (ps.map Prod.fst).Nodup)
    (hp : lookupA ps pid = some p) :
    lookupA (ps.filter Q) pid = (if Q (pid, p) then some p else none) := by
  unfold lookupA
  rw [find?_filter_nodup ps pid p Q hnd hp]
  by_cases hQ : Q (pid, p) <;> simp [hQ]

/-- lookupA through a key-preserving value map. -/
theorem lookupA_mapVal {α β : Type} (l : List (String × α)) (g : α → β) (k : String) :
    lookupA (l.map (fun kv => (kv.1, g kv.2))) k = (lookupA l k).map g := by
  induction l with
  | nil => rfl
  | cons kv rest ih =>
    by_cases h : kv.1 = k <;> simp [lookupA_cons, h, ih]

theorem keys_mapVal {α β : Type} (l : List (String × α)) (g : α → β) :
    (l.map (fun kv => (kv.1, g kv.2))).map Prod.fst = l.map Prod.fst := by
  induction l <;> simp_all

theorem nodup_keys_filter {α : Type} (l : List (String × α)) (Q : String × α → Bool)
    (hnd : (l.map Prod.fst).Nodup) : ((l.filter Q).map Prod.fst).Nodup :=
  List.Nodup.sublist (List.Sublist.map Prod.fst (List.filter_sublist l)) hnd

/-- The keys of the resolved-bid map are a permutation of the players keys. -/
theorem keys_updatedBids_perm (gs : GameState) :
    ((updatedBids gs).map Prod.fst).Perm ((playersOf gs).map Prod.fst) := by
  have h1 : (updatedBids gs).map Prod.fst
      = (activePairs gs).map Prod.fst ++ (timedOutPairs gs).map Prod.fst := by
    rw [updatedBids, List.map_append,
      keys_mapVal (activePairs gs) (resolveActiveBid gs.maxBid),
      keys_mapVal (timedOutPairs gs) (fun q => q.currentBid.getD gs.maxBid)]
  rw [h1]
  have hperm : (activePairs gs ++ timedOutPairs gs).Perm (playersOf gs) := by
    have := List.filter_append_perm (fun kv => !kv.2.isTimedOut) (playersOf gs)
    simpa [activePairs, timedOutPairs, Bool.not_not] using this
  have := hperm.map Prod.fst
  simpa using this

theorem nodup_keys_updatedBids (gs : GameState) (ps : List (String × Player))
    (hps : gs.players = some ps) (hnd : (ps.map Prod.fst).Nodup) :
    ((updatedBids gs).map Prod.fst).Nodup := by
  have hpl : playersOf gs = ps := by simp [playersOf, hps]
  exact ((keys_updatedBids_perm gs).nodup_iff).mpr (hpl ▸ hnd)

theorem lookupA_activePairs (gs : GameState) (ps : List (String × Player)) (pid : String)
    (p : Player) (hps : gs.players = some ps) (hnd : (ps.map Prod.fst).Nodup)
    (hp : lookupA ps pid = some p) :
    lookupA (activePairs gs) pid = (if p.isTimedOut then none else some p) := by
  have hpl : playersOf gs = ps := by simp [playersOf, hps]
  unfold activePairs
  rw [hpl, lookupA_filter_nodup ps pid p _ hnd hp]
  cases hpt : p.isTimedOut <;> simp [hpt]

theorem lookupA_timedOutPairs (gs : GameState) (ps : List (String × Player)) (pid : String)
    (p : Player) (hps : gs.players = some ps) (hnd : (ps.map Prod.fst).Nodup)
    (hp : lookupA ps pid = some p) :
    lookupA (timedOutPairs gs) pid = (if p.isTimedOut then some p else none) := by
  have hpl : playersOf gs = ps := by simp [playersOf, hps]
  unfold timedOutPairs
  rw [hpl, lookupA_filter_nodup ps pid p _ hnd hp]

/-- The bid resolved for a player by processGameRound (first variant). -/
def resolvedBidOf (gs : GameState) (p : Player) : ℚ :=
  if p.isTimedOut then p.currentBid.getD gs.maxBid else resolveActiveBid gs.maxBid p

theorem lookupA_updatedBids (gs : GameState) (ps : List (String × Player)) (pid : String)
    (p : Player) (hps : gs.players = some ps) (hnd : (ps.map Prod.fst).Nodup)
    (hp : lookupA ps pid = some p) :
    lookupA (updatedBids gs) pid = some (resolvedBidOf gs p) := by
  unfold updatedBids
  rw [lookupA_append, lookupA_mapVal (activePairs gs) (resolveActiveBid gs.maxBid) pid,
    lookupA_mapVal (timedOutPairs gs) (fun q => q.currentBid.getD gs.maxBid) pid,
    lookupA_activePairs gs ps pid p hps hnd hp, lookupA_timedOutPairs gs ps pid p hps hnd hp]
  cases hpt : p.isTimedOut <;> simp [resolvedBidOf, hpt]

/-- Effect of processGameRound's update batch on the record of player pid. -/
theorem stepFold_processGameRoundUpdates (gs : GameState) (ps : List (String × Player))
    (pid : String) (p : Player) (hps : gs.players = some ps)
    (hnd : (ps.map Prod.fst).Nodup) (hp : lookupA ps pid = some p) (op : Option Player) :
    (processGameRoundUpdates gs).foldl (stepPlayer pid) op =
      (if p.isTimedOut then
        op.map (fun q => { q with currentBid := some (p.currentBid.getD gs.maxBid),
                                  hasSubmittedBid := p.hasSubmittedBid })
      else if p.hasSubmittedBid && p.currentBid.isSome then
        op.map (fun q => { q with currentBid := p.currentBid,
                                  hasSubmittedBid := p.hasSubmittedBid })
      else
        op.map (fun q => { q with currentBid := some gs.maxBid,
                                  hasSubmittedBid := false })) := by
  have hpl : playersOf gs = ps := by simp [playersOf, hps]
  have hA : activePairs gs = ps.filter (fun kv => !kv.2.isTimedOut) := by
    rw [activePairs, hpl]
  have hT : timedOutPairs gs = ps.filter (fun kv => kv.2.isTimedOut) := by
    rw [timedOutPairs, hpl]
  have hfA : ∀ kv : String × Player,
      ∀ e ∈ (if kv.2.hasSubmittedBid && kv.2.currentBid.isSome then
          [UpdateEntry.playerBid kv.1 kv.2.currentBid,
           UpdateEntry.playerSubmitted kv.1 kv.2.hasSubmittedBid]
        else
          [UpdateEntry.playerBid kv.1 (some gs.maxBid),
           UpdateEntry.playerSubmitted kv.1 false]),
      ∀ q, entryPid e = some q → q = kv.1 := by
    intro kv e he q hq
    split at he <;> simp at he <;>
      rcases he with rfl | rfl <;> simp [entryPid] at hq <;> exact hq.symm
  have hfT : ∀ kv : String × Player,
      ∀ e ∈ [UpdateEntry.playerBid kv.1 (some (kv.2.currentBid.getD gs.maxBid)),
             UpdateEntry.playerSubmitted kv.1 kv.2.hasSubmittedBid],
      ∀ q, entryPid e = some q → q = kv.1 := by
    intro kv e he q hq
    simp at he
    rcases he with rfl | rfl <;> simp [entryPid] at hq <;> exact hq.symm
  unfold processGameRoundUpdates
  rw [hA, hT, List.foldl_append,
    foldl_stepPlayer_flatMap pid _ (ps.filter (fun kv => !kv.2.isTimedOut)) hfA
      (nodup_keys_filter ps _ hnd) op,
    find?_filter_nodup ps pid p (fun kv => !kv.2.isTimedOut) hnd hp]
  cases hpt : p.isTimedOut with
  | true =>
    rw [if_neg (by simp [hpt])]
    rw [foldl_stepPlayer_flatMap pid _ (ps.filter (fun kv => kv.2.isTimedOut)) hfT
        (nodup_keys_filter ps _ hnd) op,
      find?_filter_nodup ps pid p (fun kv => kv.2.isTimedOut) hnd hp, if_pos (by simp [hpt])]
    simp only [List.foldl_cons, List.foldl_nil, stepPlayer, if_pos rfl, Option.map_map]
    cases op with
    | none => rfl
    | some q => rfl
  | false =>
    rw [if_pos (by simp [hpt])]
    rw [foldl_stepPlayer_flatMap pid _ (ps.filter (fun kv => kv.2.isTimedOut)) hfT
        (nodup_keys_filter ps _ hnd) _,
      find?_filter_nodup ps pid p (fun kv => kv.2.isTimedOut) hnd hp, if_neg (by simp [hpt])]
    rw [if_neg (show ¬(false = true) by simp)]
    dsimp only
    by_cases hv : p.hasSubmittedBid && p.currentBid.isSome
    · rw [if_pos hv, if_pos hv]
      simp only [List.foldl_cons, List.foldl_nil, stepPlayer, if_pos rfl, Option.map_map]
      cases op with
      | none => rfl
      | some q => rfl
    · rw [if_neg hv, if_neg hv]
      simp only [List.foldl_cons, List.foldl_nil, stepPlayer, if_pos rfl, Option.map_map]
      cases op with
      | none => rfl
      | some q => rfl

@[simp] theorem stepPlayer_roundHistoryAt (pid : String) (op : Option Player) (i : Nat)
    (r : RoundResult) : stepPlayer pid op (UpdateEntry.roundHistoryAt i r) = op := rfl

@[simp] theorem stepPlayer_roundBids (pid : String) (op : Option Player)
    (v : Option (List (String × ℚ))) : stepPlayer pid op (UpdateEntry.roundBids v) = op := rfl

@[simp] theorem stepPlayer_roundStartTime (pid : String) (op : Option Player)
    (v : Option Nat) : stepPlayer pid op (UpdateEntry.roundStartTime v) = op := rfl

@[simp] theorem stepPlayer_currentRound (pid : String) (op : Option Player) (v : Nat) :
    stepPlayer pid op (UpdateEntry.currentRound v) = op := rfl

@[simp] theorem stepPlayer_isActive (pid : String) (op : Option Player) (v : Bool) :
    stepPlayer pid op (UpdateEntry.isActive v) = op := rfl

@[simp] theorem stepPlayer_isEnded (pid : String) (op : Option Player) (v : Bool) :
    stepPlayer pid op (UpdateEntry.isEnded v) = op := rfl

@[simp] theorem stepPlayer_endTime (pid : String) (op : Option Player) (v : Nat) :
    stepPlayer pid op (UpdateEntry.endTime v) = op := rfl

@[simp] theorem stepPlayer_status (pid : String) (op : Option Player) (v : String) :
    stepPlayer pid op (UpdateEntry.status v) = op := rfl

@[simp] theorem stepPlayer_updatedAt (pid : String) (op : Option Player) (v : Nat) :
    stepPlayer pid op (UpdateEntry.updatedAt v) = op := rfl

@[simp] theorem stepPlayer_totalProfit (pid : String) (op : Option Player) (v : ℚ) :
    stepPlayer pid op (UpdateEntry.totalProfit v) = op := rfl

@[simp] theorem stepPlayer_bestRound (pid : String) (op : Option Player) (v : Nat) :
    stepPlayer pid op (UpdateEntry.bestRound v) = op := rfl

@[simp] theorem stepPlayer_bestRoundProfit (pid : String) (op : Option Player)
    (v : Option ℚ) : stepPlayer pid op (UpdateEntry.bestRoundProfit v) = op := rfl

@[simp] theorem stepPlayer_averageMarketShare (pid : String) (op : Option Player) (v : ℚ) :
    stepPlayer pid op (UpdateEntry.averageMarketShare v) = op := rfl

/-- Effect of advanceGameState's update batch on the record of player pid:
the resolved bid is written back for everyone; when the game goes on, active
players' currentBid is then reset to null. -/
theorem stepFold_advanceGameStateUpdates (cs : CalcShares) (cp : CalcProfits)
    (gs : GameState) (ps : List (String × Player)) (pid : String) (p : Player)
    (hps : gs.players = some ps) (hnd : (ps.map Prod.fst).Nodup)
    (hp : lookupA ps pid = some p) (now : Nat) (op : Option Player) :
    (advanceGameStateUpdates gs (roundResultOf cs cp gs now) now).foldl (stepPlayer pid) op =
      (if gs.currentRound ≥ gs.totalRounds then
        op.map (fun q => { q with currentBid := some (resolvedBidOf gs p) })
      else if p.isTimedOut then
        op.map (fun q => { q with currentBid := some (resolvedBidOf gs p) })
      else
        op.map (fun q => { q with currentBid := none })) := by
  have hpl : playersOf gs = ps := by simp [playersOf, hps]
  have hbids : (roundResultOf cs cp gs now).bids = updatedBids gs := rfl
  have hfB : ∀ kv : String × ℚ, ∀ e ∈ [UpdateEntry.playerBid kv.1 (some kv.2)],
      ∀ q, entryPid e = some q → q = kv.1 := by
    intro kv e he q hq
    simp at he
    subst he
    simp [entryPid] at hq
    exact hq.symm
  have hfR : ∀ kv : String × Player,
      ∀ e ∈ (if !kv.2.isTimedOut then [UpdateEntry.playerBid kv.1 none] else ([] : List UpdateEntry)),
      ∀ q, entryPid e = some q → q = kv.1 := by
    intro kv e he q hq
    split at he <;> simp at he
    subst he
    simp [entryPid] at hq
    exact hq.symm
  unfold advanceGameStateUpdates
  rw [hbids, List.foldl_append, List.foldl_append]
  simp only [List.foldl_cons, List.foldl_nil, stepPlayer_roundHistoryAt,
    stepPlayer_roundBids, stepPlayer_roundStartTime]
  rw [foldl_stepPlayer_flatMap pid _ (updatedBids gs) hfB
      (nodup_keys_updatedBids gs ps hps hnd) op,
    find?_key_of_lookupA _ _ _ (lookupA_updatedBids gs ps pid p hps hnd hp)]
  dsimp only
  simp only [List.foldl_cons, List.foldl_nil, stepPlayer, if_pos rfl, if_true]
  by_cases hend : gs.currentRound ≥ gs.totalRounds
  · rw [if_pos hend, if_pos hend]
    simp only [List.foldl_cons, List.foldl_nil, stepPlayer_isEnded, stepPlayer_isActive,
      stepPlayer_endTime, stepPlayer_status, stepPlayer_updatedAt]
  · rw [if_neg hend, if_neg hend]
    rw [List.foldl_append]
    simp only [List.foldl_cons, List.foldl_nil, stepPlayer_currentRound, stepPlayer_isActive]
    rw [hpl, foldl_stepPlayer_flatMap pid _ ps hfR hnd _,
      find?_key_of_lookupA _ _ _ hp]
    dsimp only
    cases hpt : p.isTimedOut with
    | true =>
      rw [if_neg (by simp), if_pos (by simp)]
      simp only [List.foldl_nil]
    | false =>
      rw [if_pos (by simp), if_neg (by simp)]
      simp only [List.foldl_cons, List.foldl_nil, stepPlayer, if_pos rfl, if_true,
        Option.map_map]
      cases op with
      | none => rfl
      | some q => rfl

/-- The record stored for player pid after a full handleAutopilot settlement. -/
theorem playerOf_settleGame (cs : CalcShares) (cp : CalcProfits) (g : Game) (now : Nat)
    (ps : List (String × Player)) (pid : String) (p : Player)
    (hps : g.gameState.players = some ps) (hnd : (ps.map Prod.fst).Nodup)
    (hp : lookupA ps pid = some p) :
    playerOf (settleGame cs cp g now) pid =
      (if p.isTimedOut then
        some { p with currentBid := some (p.currentBid.getD g.gameState.maxBid) }
      else
        some { p with
          hasSubmittedBid := p.hasSubmittedBid && p.currentBid.isSome,
          currentBid := if g.gameState.currentRound ≥ g.gameState.totalRounds
                        then some (resolveActiveBid g.gameState.maxBid p) else none }) := by
  have hop : playerOf g pid = some p := by simp [playerOf, hps, hp]
  have hset : settleGame cs cp g now =
      applyEntries (applyEntries g (processGameRoundUpdates g.gameState))
        (advanceGameStateUpdates g.gameState (roundResultOf cs cp g.gameState now) now) := rfl
  rw [hset, playerOf_applyEntries, playerOf_applyEntries, hop,
    stepFold_processGameRoundUpdates g.gameState ps pid p hps hnd hp,
    stepFold_advanceGameStateUpdates cs cp g.gameState ps pid p hps hnd hp now]
  obtain ⟨pn, pb, psub, plast, pto⟩ := p
  cases pto <;> cases psub <;> cases pb <;>
    by_cases hend : g.gameState.currentRound ≥ g.gameState.totalRounds <;>
    simp [hend, resolvedBidOf, resolveActiveBid]

/-- A batch of player-path entries only rewrites the players object. -/
theorem applyEntries_playerEntries_shape (es : List UpdateEntry)
    (h : ∀ e ∈ es, kindOf e = PathKind.playerBid ∨ kindOf e = PathKind.playerSubmitted) :
    ∀ g : Game, ∃ P, applyEntries g es = { g with gameState := { g.gameState with players := P } } := by
  induction es with
  | nil =>
    intro g
    exact ⟨g.gameState.players, rfl⟩
  | cons e rest ih =>
    intro g
    have he := h e (List.mem_cons_self e rest)
    have hrest := fun x hx => h x (List.mem_cons_of_mem e hx)
    obtain ⟨P, hP⟩ := ih hrest (applyEntry g e)
    refine ⟨P, ?_⟩
    rw [applyEntries_cons, hP]
    cases e <;> simp [kindOf] at he <;> rfl

/-- settleGame unfolded into its four stages: the bid batch, the
history/reset prefix, the bid write-back, and the branch tail. -/
theorem settleGame_decomp (cs : CalcShares) (cp : CalcProfits) (g : Game) (now : Nat) :
    settleGame cs cp g now =
      applyEntries
        (applyEntries
          (applyEntries
            (applyEntries g (processGameRoundUpdates g.gameState))
            [UpdateEntry.roundHistoryAt (roundIndexOf g.gameState)
               (roundResultOf cs cp g.gameState now),
             UpdateEntry.roundBids none,
             UpdateEntry.roundStartTime none])
          ((updatedBids g.gameState).flatMap
            (fun kv => [UpdateEntry.playerBid kv.1 (some kv.2)])))
        (if g.gameState.currentRound ≥ g.gameState.totalRounds then
          [UpdateEntry.isEnded true,
           UpdateEntry.isActive false,
           UpdateEntry.endTime now,
           UpdateEntry.status "completed",
           UpdateEntry.updatedAt now]
        else
          [UpdateEntry.currentRound
             ((if g.gameState.currentRound = 0 then 1 else g.gameState.currentRound) + 1),
           UpdateEntry.isActive true]
          ++ (playersOf g.gameState).flatMap (fun kv =>
               if !kv.2.isTimedOut then [UpdateEntry.playerBid kv.1 none] else [])) := by
  show applyEntries (applyEntries g (processGameRoundUpdates g.gameState))
      (advanceGameStateUpdates g.gameState (roundResultOf cs cp g.gameState now) now) = _
  rw [advanceGameStateUpdates, applyEntries_append, applyEntries_append]
  rfl

theorem kind_ne_of_playerKinds {e : UpdateEntry} {k : PathKind}
    (h : kindOf e = PathKind.playerBid ∨ kindOf e = PathKind.playerSubmitted)
    (h1 : k ≠ PathKind.playerBid) (h2 : k ≠ PathKind.playerSubmitted) : kindOf e ≠ k := by
  rcases h with h | h <;> rw [h]
  · exact fun hc => h1 hc.symm
  · exact fun hc => h2 hc.symm

/-- After settlement, roundBids is cleared to null. -/
theorem settleGame_roundBids (cs : CalcShares) (cp : CalcProfits) (g : Game) (now : Nat) :
    (settleGame cs cp g now).gameState.roundBids = none := by
  rw [settleGame_decomp]
  have hBr : ∀ e ∈ (if g.gameState.currentRound ≥ g.gameState.totalRounds then
      [UpdateEntry.isEnded true, UpdateEntry.isActive false, UpdateEntry.endTime now,
       UpdateEntry.status "completed", UpdateEntry.updatedAt now]
    else
      [UpdateEntry.currentRound
         ((if g.gameState.currentRound = 0 then 1 else g.gameState.currentRound) + 1),
       UpdateEntry.isActive true]
      ++ (playersOf g.gameState).flatMap (fun kv =>
           if !kv.2.isTimedOut then [UpdateEntry.playerBid kv.1 none] else [])),
      kindOf e ≠ PathKind.roundBids := by
    intro e he
    split at he
    · fin_cases he <;> simp [kindOf]
    · rcases List.mem_append.mp he with h | h
      · fin_cases h <;> simp [kindOf]
      · exact kind_ne_of_playerKinds (Or.inl (kinds_resetEntries _ e h)) (by simp) (by simp)
  rw [roundBids_applyEntries _ _ hBr]
  have hM : ∀ e ∈ (updatedBids g.gameState).flatMap
      (fun kv => [UpdateEntry.playerBid kv.1 (some kv.2)]), kindOf e ≠ PathKind.roundBids :=
    fun e he => kind_ne_of_playerKinds (Or.inl (kinds_bidEntries _ e he)) (by simp) (by simp)
  rw [roundBids_applyEntries _ _ hM]
  simp [applyEntry]

/-- After settlement, roundStartTime is cleared to null. -/
theorem settleGame_roundStartTime (cs : CalcShares) (cp : CalcProfits) (g : Game) (now : Nat) :
    (settleGame cs cp g now).gameState.roundStartTime = none := by
  rw [settleGame_decomp]
  have hBr : ∀ e ∈ (if g.gameState.currentRound ≥ g.gameState.totalRounds then
      [UpdateEntry.isEnded true, UpdateEntry.isActive false, UpdateEntry.endTime now,
       UpdateEntry.status "completed", UpdateEntry.updatedAt now]
    else
      [UpdateEntry.currentRound
         ((if g.gameState.currentRound = 0 then 1 else g.gameState.currentRound) + 1),
       UpdateEntry.isActive true]
      ++ (playersOf g.gameState).flatMap (fun kv =>
           if !kv.2.isTimedOut then [UpdateEntry.playerBid kv.1 none] else [])),
      kindOf e ≠ PathKind.roundStartTime := by
    intro e he
    split at he
    · fin_cases he <;> simp [kindOf]
    · rcases List.mem_append.mp he with h | h
      · fin_cases h <;> simp [kindOf]
      · exact kind_ne_of_playerKinds (Or.inl (kinds_resetEntries _ e h)) (by simp) (by simp)
  rw [roundStartTime_applyEntries _ _ hBr]
  have hM : ∀ e ∈ (updatedBids g.gameState).flatMap
      (fun kv => [UpdateEntry.playerBid kv.1 (some kv.2)]),
      kindOf e ≠ PathKind.roundStartTime :=
    fun e he => kind_ne_of_playerKinds (Or.inl (kinds_bidEntries _ e he)) (by simp) (by simp)
  rw [roundStartTime_applyEntries _ _ hM]
  simp [applyEntry]

/-- After settlement, the round history carries the new round result at the
round index (and is otherwise the old history). -/
theorem settleGame_roundHistory (cs : CalcShares) (cp : CalcProfits) (g : Game) (now : Nat) :
    (settleGame cs cp g now).gameState.roundHistory =
      upsertA g.gameState.roundHistory (roundIndexOf g.gameState)
        (roundResultOf cs cp g.gameState now) := by
  rw [settleGame_decomp]
  have hBr : ∀ e ∈ (if g.gameState.currentRound ≥ g.gameState.totalRounds then
      [UpdateEntry.isEnded true, UpdateEntry.isActive false, UpdateEntry.endTime now,
       UpdateEntry.status "completed", UpdateEntry.updatedAt now]
    else
      [UpdateEntry.currentRound
         ((if g.gameState.currentRound = 0 then 1 else g.gameState.currentRound) + 1),
       UpdateEntry.isActive true]
      ++ (playersOf g.gameState).flatMap (fun kv =>
           if !kv.2.isTimedOut then [UpdateEntry.playerBid kv.1 none] else [])),
      kindOf e ≠ PathKind.roundHistoryAt := by
    intro e he
    split at he
    · fin_cases he <;> simp [kindOf]
    · rcases List.mem_append.mp he with h | h
      · fin_cases h <;> simp [kindOf]
      · exact kind_ne_of_playerKinds (Or.inl (kinds_resetEntries _ e h)) (by simp) (by simp)
  rw [roundHistory_applyEntries _ _ hBr]
  have hM : ∀ e ∈ (updatedBids g.gameState).flatMap
      (fun kv => [UpdateEntry.playerBid kv.1 (some kv.2)]),
      kindOf e ≠ PathKind.roundHistoryAt :=
    fun e he => kind_ne_of_playerKinds (Or.inl (kinds_bidEntries _ e he)) (by simp) (by simp)
  rw [roundHistory_applyEntries _ _ hM]
  have hB1 : ∀ e ∈ processGameRoundUpdates g.gameState, kindOf e ≠ PathKind.roundHistoryAt :=
    fun e he => kind_ne_of_playerKinds (kinds_processGameRoundUpdates _ e he)
      (by simp) (by simp)
  simp only [applyEntries_cons, applyEntries_nil, applyEntry]
  rw [roundHistory_applyEntries _ _ hB1]

/-- currentRound after settlement: unchanged when the game ends, else the
next round number. -/
theorem settleGame_currentRound (cs : CalcShares) (cp : CalcProfits) (g : Game) (now : Nat) :
    (settleGame cs cp g now).gameState.currentRound =
      (if g.gameState.currentRound ≥ g.gameState.totalRounds then g.gameState.currentRound
       else (if g.gameState.currentRound = 0 then 1 else g.gameState.currentRound) + 1) := by
  rw [settleGame_decomp]
  have hM : ∀ e ∈ (updatedBids g.gameState).flatMap
      (fun kv => [UpdateEntry.playerBid kv.1 (some kv.2)]),
      kindOf e ≠ PathKind.currentRound :=
    fun e he => kind_ne_of_playerKinds (Or.inl (kinds_bidEntries _ e he)) (by simp) (by simp)
  have hB1 : ∀ e ∈ processGameRoundUpdates g.gameState, kindOf e ≠ PathKind.currentRound :=
    fun e he => kind_ne_of_playerKinds (kinds_processGameRoundUpdates _ e he)
      (by simp) (by simp)
  by_cases hend : g.gameState.currentRound ≥ g.gameState.totalRounds
  · rw [if_pos hend, if_pos hend]
    have hBr : ∀ e ∈ [UpdateEntry.isEnded true, UpdateEntry.isActive false,
        UpdateEntry.endTime now, UpdateEntry.status "completed", UpdateEntry.updatedAt now],
        kindOf e ≠ PathKind.currentRound := by
      intro e he
      fin_cases he <;> simp [kindOf]
    rw [currentRound_applyEntries _ _ hBr, currentRound_applyEntries _ _ hM]
    have hP3 : ∀ e ∈ [UpdateEntry.roundHistoryAt (roundIndexOf g.gameState)
          (roundResultOf cs cp g.gameState now),
        UpdateEntry.roundBids none, UpdateEntry.roundStartTime none],
        kindOf e ≠ PathKind.currentRound := by
      intro e he
      fin_cases he <;> simp [kindOf]
    rw [currentRound_applyEntries _ _ hP3, currentRound_applyEntries _ _ hB1]
  · rw [if_neg hend, if_neg hend, applyEntries_append]
    have hres : ∀ e ∈ (playersOf g.gameState).flatMap (fun kv =>
        if !kv.2.isTimedOut then [UpdateEntry.playerBid kv.1 none] else []),
        kindOf e ≠ PathKind.currentRound :=
      fun e he => kind_ne_of_playerKinds (Or.inl (kinds_resetEntries _ e he))
        (by simp) (by simp)
    rw [currentRound_applyEntries _ _ hres]
    simp [applyEntry]

/-- isActive after settlement: false when the game ends, true otherwise. -/
theorem settleGame_isActive (cs : CalcShares) (cp : CalcProfits) (g : Game) (now : Nat) :
    (settleGame cs cp g now).gameState.isActive =
      (if g.gameState.currentRound ≥ g.gameState.totalRounds then false else true) := by
  rw [settleGame_decomp]
  by_cases hend : g.gameState.currentRound ≥ g.gameState.totalRounds
  · rw [if_pos hend, if_pos hend]
    simp [applyEntry]
  · rw [if_neg hend, if_neg hend, applyEntries_append]
    have hres : ∀ e ∈ (playersOf g.gameState).flatMap (fun kv =>
        if !kv.2.isTimedOut then [UpdateEntry.playerBid kv.1 none] else []),
        kindOf e ≠ PathKind.isActive :=
      fun e he => kind_ne_of_playerKinds (Or.inl (kinds_resetEntries _ e he))
        (by simp) (by simp)
    rw [isActive_applyEntries _ _ hres]
    simp [applyEntry]

/-- isEnded after settlement: set to true when the game ends, untouched
otherwise. -/
theorem settleGame_isEnded (cs : CalcShares) (cp : CalcProfits) (g : Game) (now : Nat) :
    (settleGame cs cp g now).gameState.isEnded =
      (if g.gameState.currentRound ≥ g.gameState.totalRounds then true
       else g.gameState.isEnded) := by
  rw [settleGame_decomp]
  have hM : ∀ e ∈ (updatedBids g.gameState).flatMap
      (fun kv => [UpdateEntry.playerBid kv.1 (some kv.2)]),
      kindOf e ≠ PathKind.isEnded :=
    fun e he => kind_ne_of_playerKinds (Or.inl (kinds_bidEntries _ e he)) (by simp) (by simp)
  have hB1 : ∀ e ∈ processGameRoundUpdates g.gameState, kindOf e ≠ PathKind.isEnded :=
    fun e he => kind_ne_of_playerKinds (kinds_processGameRoundUpdates _ e he)
      (by simp) (by simp)
  by_cases hend : g.gameState.currentRound ≥ g.gameState.totalRounds
  · rw [if_pos hend, if_pos hend]
    simp [applyEntry]
  · rw [if_neg hend, if_neg hend, applyEntries_append]
    have hres : ∀ e ∈ (playersOf g.gameState).flatMap (fun kv =>
        if !kv.2.isTimedOut then [UpdateEntry.playerBid kv.1 none] else []),
        kindOf e ≠ PathKind.isEnded :=
      fun e he => kind_ne_of_playerKinds (Or.inl (kinds_resetEntries _ e he))
        (by simp) (by simp)
    rw [isEnded_applyEntries _ _ hres]
    have hBr2 : ∀ e ∈ [UpdateEntry.currentRound
          ((if g.gameState.currentRound = 0 then 1 else g.gameState.currentRound) + 1),
        UpdateEntry.isActive true], kindOf e ≠ PathKind.isEnded := by
      intro e he
      fin_cases he <;> simp [kindOf]
    rw [isEnded_applyEntries _ _ hBr2, isEnded_applyEntries _ _ hM]
    have hP3 : ∀ e ∈ [UpdateEntry.roundHistoryAt (roundIndexOf g.gameState)
          (roundResultOf cs cp g.gameState now),
        UpdateEntry.roundBids none, UpdateEntry.roundStartTime none],
        kindOf e ≠ PathKind.isEnded := by
      intro e he
      fin_cases he <;> simp [kindOf]
    rw [isEnded_applyEntries _ _ hP3, isEnded_applyEntries _ _ hB1]

/-- Game status after settlement: completed when the game ends, untouched
otherwise. -/
theorem settleGame_status (cs : CalcShares) (cp : CalcProfits) (g : Game) (now : Nat) :
    (settleGame cs cp g now).status =
      (if g.gameState.currentRound ≥ g.gameState.totalRounds then "completed"
       else g.status) := by
  rw [settleGame_decomp]
  have hM : ∀ e ∈ (updatedBids g.gameState).flatMap
      (fun kv => [UpdateEntry.playerBid kv.1 (some kv.2)]),
      kindOf e ≠ PathKind.status :=
    fun e he => kind_ne_of_playerKinds (Or.inl (kinds_bidEntries _ e he)) (by simp) (by simp)
  have hB1 : ∀ e ∈ processGameRoundUpdates g.gameState, kindOf e ≠ PathKind.status :=
    fun e he => kind_ne_of_playerKinds (kinds_processGameRoundUpdates _ e he)
      (by simp) (by simp)
  by_cases hend : g.gameState.currentRound ≥ g.gameState.totalRounds
  · rw [if_pos hend, if_pos hend]
    simp [applyEntry]
  · rw [if_neg hend, if_neg hend, applyEntries_append]
    have hres : ∀ e ∈ (playersOf g.gameState).flatMap (fun kv =>
        if !kv.2.isTimedOut then [UpdateEntry.playerBid kv.1 none] else []),
        kindOf e ≠ PathKind.status :=
      fun e he => kind_ne_of_playerKinds (Or.inl (kinds_resetEntries _ e he))
        (by simp) (by simp)
    rw [status_applyEntries _ _ hres]
    have hBr2 : ∀ e ∈ [UpdateEntry.currentRound
          ((if g.gameState.currentRound = 0 then 1 else g.gameState.currentRound) + 1),
        UpdateEntry.isActive true], kindOf e ≠ PathKind.status := by
      intro e he
      fin_cases he <;> simp [kindOf]
    rw [status_applyEntries _ _ hBr2, status_applyEntries _ _ hM]
    have hP3 : ∀ e ∈ [UpdateEntry.roundHistoryAt (roundIndexOf g.gameState)
          (roundResultOf cs cp g.gameState now),
        UpdateEntry.roundBids none, UpdateEntry.roundStartTime none],
        kindOf e ≠ PathKind.status := by
      intro e he
      fin_cases he <;> simp [kindOf]
    rw [status_applyEntries _ _ hP3, status_applyEntries _ _ hB1]

/-- A concrete stand-in for the imported share function (shares = bids),
used to evaluate the settlement engine on concrete games. -/
def csId : CalcShares := fun bids => bids

/-- A concrete stand-in for the imported profit function. -/
def cpId : CalcProfits := fun bids _ _ => bids

/-- Concrete player constructor for test fixtures. -/
def mkPlayer (bid : Option ℚ) (submitted timedOut : Bool) : Player :=
  { name := "p", currentBid := bid, hasSubmittedBid := submitted,
    lastBidTime := none, isTimedOut := timedOut }

/-- Base fixture state: round 1 of 3, 60 s limit, maxBid 100, autopilot on. -/
def baseGS : GameState :=
  { hasGameStarted := true, isActive := true, isEnded := false, currentRound := 1,
    totalRounds := 3, roundTimeLimit := 60, roundStartTime := some 1000, minBid := 0,
    maxBid := 100, costPerUnit := 50, players := none, roundBids := none,
    roundHistory := [], autopilot := some { enabled := true, lastUpdateTime := some 0 },
    totalProfit := 0, averageMarketShare := 0, bestRound := 0, bestRoundProfit := some 0,
    endTime := none }

/-- Wrap a state into a stored game document. -/
def mkGame (gs : GameState) : Game := { status := "active", updatedAt := 0, gameState := gs }

def pSub50 : Player := mkPlayer (some 50) true false

def pSub60 : Player := mkPlayer (some 60) true false

def pNoBid : Player := mkPlayer none false false

def pTimed60 : Player := mkPlayer (some 60) true true

def psAB : List (String × Player) := [("a", pSub50), ("b", pSub60)]

/-- C10 fixture: a round whose start time is the epoch value 0. -/
def gsC10 : GameState := { baseGS with roundStartTime := some 0, players := some psAB }

/-- C10: shouldProcessRound returns false whenever roundStartTime, players or
roundTimeLimit is absent, null or zero — the guard treats falsy values as
missing, so an epoch-0 start time or a zero time limit is never due,
whatever the players map holds. -/
theorem shouldProcessRound_falsy_guard (gs : GameState) (now : Nat)
    (h : gs.roundStartTime = none ∨ gs.roundStartTime = some 0 ∨ gs.players = none
         ∨ gs.roundTimeLimit = 0) :
    shouldProcessRound gs now = false := by
  unfold shouldProcessRound
  rcases h with h | h | h | h <;> simp [truthyTime, h]

/-- C10 witness: the guard fires on a concrete state whose roundStartTime
is epoch 0. -/
theorem shouldProcessRound_falsy_guard_witness :
    shouldProcessRound gsC10 5 = false :=
  shouldProcessRound_falsy_guard gsC10 5 (Or.inr (Or.inl rfl))

/-- C6: for a state that passes the presence guard (nonzero start time,
players object present, nonzero time limit), shouldProcessRound is true
exactly when at least two players are active and either the elapsed time
reached roundTimeLimit seconds or every active player submitted; and
allPlayersSubmittedBids is false below the 2-active-player quorum
regardless of the flags. -/
theorem shouldProcessRound_spec (gs : GameState) (now t : Nat)
    (ps : List (String × Player)) (h1 : gs.roundStartTime = some t) (h2 : t ≠ 0)
    (h3 : gs.players = some ps) (h4 : gs.roundTimeLimit ≠ 0) :
    (shouldProcessRound gs now = true ↔
      (2 ≤ (activeValues gs).length
       ∧ ((gs.roundTimeLimit : Int) * 1000 ≤ (now : Int) - (t : Int)
          ∨ ∀ p ∈ activeValues gs, p.hasSubmittedBid = true)))
    ∧ (∀ gs2 : GameState, (activeValues gs2).length < 2 →
        allPlayersSubmittedBids gs2 = false) := by
  constructor
  · have hg : truthyTime gs.roundStartTime = true := by simp [h1, truthyTime, h2]
    unfold shouldProcessRound
    rw [if_neg (by simp [hg, h3, h4])]
    dsimp only
    by_cases hlen : (activeValues gs).length < 2
    · rw [if_pos hlen]
      simp only [Bool.false_eq_true, false_iff, not_and]
      intro hle
      omega
    · rw [if_neg hlen]
      rw [h1]
      simp only [Option.getD_some, Bool.or_eq_true, decide_eq_true_eq]
      have hall : allPlayersSubmittedBids gs = true ↔
          ∀ p ∈ activeValues gs, p.hasSubmittedBid = true := by
        unfold allPlayersSubmittedBids
        rw [h3]
        dsimp only
        rw [if_neg hlen]
        exact List.all_eq_true
      constructor
      · rintro (hel | hsub)
        · exact ⟨by omega, Or.inl (by omega)⟩
        · exact ⟨by omega, Or.inr (hall.mp hsub)⟩
      · rintro ⟨_, hel | hsub⟩
        · exact Or.inl (by omega)
        · exact Or.inr (hall.mpr hsub)
  · intro gs2 hlt
    unfold allPlayersSubmittedBids
    cases hpl : gs2.players with
    | none => rfl
    | some ps2 =>
      dsimp only
      rw [if_pos]
      simpa [activeValues, playersOf, hpl] using hlt

/-- C6 fixture: a 2-player state with both bids submitted. -/
def gsC6 : GameState := { baseGS with roundStartTime := some 1000, players := some psAB }

/-- C6 witness: a 2-player state with both bids in is due even before the
time limit. -/
theorem shouldProcessRound_spec_witness : shouldProcessRound gsC6 2000 = true :=
  ((shouldProcessRound_spec gsC6 2000 1000 psAB rfl (by decide) rfl (by decide)).1).mpr
    (by decide)

/-- C2 counterexample fixture: a settlement of a game whose stored
currentRound is 0 (below the 1-based domain). -/
def gC2 : Game := mkGame { baseGS with currentRound := 0, players := some psAB }

/-- C2 counterexample: settling a game with currentRound = 0 and
totalRounds = 3 writes currentRound = 2 — an increase of 2, not exactly 1,
refuting the claim as stated over every settlement. -/
theorem currentRound_increment_cx :
    gC2.gameState.currentRound = 0
    ∧ gC2.gameState.currentRound < gC2.gameState.totalRounds
    ∧ (settleGame csId cpId gC2 7).gameState.currentRound = 2 := by
  refine ⟨rfl, by decide, ?_⟩
  decide

/-- C2 (amended): when currentRound >= totalRounds the settlement sets
isEnded, clears isActive, completes the status and leaves currentRound
unchanged; otherwise it writes (currentRound or 1 when zero) + 1 and keeps
isActive true — so currentRound grows by exactly 1 whenever it was >= 1. -/
theorem advanceGameState_round_counter (cs : CalcShares) (cp : CalcProfits)
    (g : Game) (now : Nat) :
    (g.gameState.currentRound ≥ g.gameState.totalRounds →
      (settleGame cs cp g now).gameState.isEnded = true
      ∧ (settleGame cs cp g now).gameState.isActive = false
      ∧ (settleGame cs cp g now).status = "completed"
      ∧ (settleGame cs cp g now).gameState.currentRound = g.gameState.currentRound)
    ∧ (g.gameState.currentRound < g.gameState.totalRounds →
      (settleGame cs cp g now).gameState.currentRound
        = (if g.gameState.currentRound = 0 then 1 else g.gameState.currentRound) + 1
      ∧ (settleGame cs cp g now).gameState.isActive = true)
    ∧ (1 ≤ g.gameState.currentRound → g.gameState.currentRound < g.gameState.totalRounds →
      (settleGame cs cp g now).gameState.currentRound = g.gameState.currentRound + 1) := by
  refine ⟨fun hend => ?_, fun hlt => ?_, fun h1 hlt => ?_⟩
  · rw [settleGame_isEnded, settleGame_isActive, settleGame_status, settleGame_currentRound]
    simp [hend]
  · have hend : ¬ g.gameState.currentRound ≥ g.gameState.totalRounds := by omega
    rw [settleGame_currentRound, settleGame_isActive]
    simp [hend]
  · have hend : ¬ g.gameState.currentRound ≥ g.gameState.totalRounds := by omega
    have h0 : g.gameState.currentRound ≠ 0 := by omega
    rw [settleGame_currentRound]
    simp [hend, h0]

/-- C2 witness: a mid-game settlement (round 1 of 3) advances to round 2
with the game still active. -/
theorem advanceGameState_round_counter_witness :
    (settleGame csId cpId (mkGame { baseGS with players := some psAB }) 3).gameState.currentRound
      = (mkGame { baseGS with players := some psAB }).gameState.currentRound + 1 :=
  (advanceGameState_round_counter csId cpId
    (mkGame { baseGS with players := some psAB }) 3).2.2 (by decide) (by decide)

/-- C4 fixture: two active players, both with valid submitted bids, in
round 1 of 3. -/
def gC4 : Game := mkGame { baseGS with players := some psAB }

/-- C4 counterexample: after the settlement of gC4, active player a (not
timed out) still has hasSubmittedBid = true — the claimed reset of the
submission flag to false does not happen. -/
theorem settlement_post_state_cx :
    (playerOf gC4 "a").map Player.isTimedOut = some false
    ∧ ¬ ((playerOf (settleGame csId cpId gC4 11) "a").map Player.hasSubmittedBid
          = some false) := by
  refine ⟨rfl, ?_⟩
  decide

/-- C4 (amended): after a settlement, roundHistory at the round index holds
the new round result and roundBids / roundStartTime are null; every active
player ends with hasSubmittedBid equal to (had a valid submitted bid) — not
reset to false — and currentBid null only when the game continues (when the
game ends it keeps the resolved bid); a timed-out player keeps the
submission flag and gets the resolved bid stored (maxBid when the stored
bid was not numeric). -/
theorem settlement_post_state (cs : CalcShares) (cp : CalcProfits) (g : Game) (now : Nat)
    (ps : List (String × Player)) (hps : g.gameState.players = some ps)
    (hnd : (ps.map Prod.fst).Nodup) :
    lookupA (settleGame cs cp g now).gameState.roundHistory (roundIndexOf g.gameState)
      = some (roundResultOf cs cp g.gameState now)
    ∧ (1 ≤ g.gameState.currentRound →
        roundIndexOf g.gameState = g.gameState.currentRound - 1)
    ∧ (settleGame cs cp g now).gameState.roundBids = none
    ∧ (settleGame cs cp g now).gameState.roundStartTime = none
    ∧ (∀ pid p, lookupA ps pid = some p → p.isTimedOut = false →
        playerOf (settleGame cs cp g now) pid
          = some { p with
              hasSubmittedBid := p.hasSubmittedBid && p.currentBid.isSome,
              currentBid := if g.gameState.currentRound ≥ g.gameState.totalRounds
                            then some (resolveActiveBid g.gameState.maxBid p) else none })
    ∧ (∀ pid p, lookupA ps pid = some p → p.isTimedOut = true →
        playerOf (settleGame cs cp g now) pid
          = some { p with currentBid := some (p.currentBid.getD g.gameState.maxBid) }) := by
  refine ⟨?_, ?_, settleGame_roundBids cs cp g now, settleGame_roundStartTime cs cp g now,
    ?_, ?_⟩
  · rw [settleGame_roundHistory, lookupA_upsertA_eq]
  · intro h1
    unfold roundIndexOf
    have h0 : g.gameState.currentRound ≠ 0 := by omega
    simp [h0]
  · intro pid p hp hpt
    rw [playerOf_settleGame cs cp g now ps pid p hps hnd hp]
    simp [hpt]
  · intro pid p hp hpt
    rw [playerOf_settleGame cs cp g now ps pid p hps hnd hp]
    simp [hpt]

/-- C4 witness: concrete settlement of gC4 — history written at index 0,
round state cleared, and player a ends with the flag kept and bid nulled. -/
theorem settlement_post_state_witness :
    lookupA (settleGame csId cpId gC4 11).gameState.roundHistory (roundIndexOf gC4.gameState)
      = some (roundResultOf csId cpId gC4.gameState 11)
    ∧ (settleGame csId cpId gC4 11).gameState.roundBids = none
    ∧ playerOf (settleGame csId cpId gC4 11) "a"
        = some { pSub50 with
            hasSubmittedBid := pSub50.hasSubmittedBid && pSub50.currentBid.isSome,
            currentBid := if gC4.gameState.currentRound ≥ gC4.gameState.totalRounds
                          then some (resolveActiveBid gC4.gameState.maxBid pSub50) else none } :=
  have h := settlement_post_state csId cpId gC4 11 psAB rfl (by decide)
  ⟨h.1, h.2.2.1, h.2.2.2.2.1 "a" pSub50 rfl rfl⟩

/-- C3 fixture: an active submitter and a timed-out player with a stored
numeric bid. -/
def psC3 : List (String × Player) := [("a", pSub50), ("b", pTimed60), ("c", mkPlayer none false true)]

def gC3 : Game := mkGame { baseGS with players := some psC3 }

/-- C3: the bid resolved for settlement is currentBid for an active player
with hasSubmittedBid and a valid number, else maxBid; for a timed-out
player it is the stored numeric bid, else maxBid, and settlement leaves the
timed-out player's hasSubmittedBid unchanged. -/
theorem resolved_bid_rule (cs : CalcShares) (cp : CalcProfits) (g : Game) (now : Nat)
    (ps : List (String × Player)) (pid : String) (p : Player)
    (hps : g.gameState.players = some ps) (hnd : (ps.map Prod.fst).Nodup)
    (hp : lookupA ps pid = some p) :
    (p.isTimedOut = false → p.hasSubmittedBid = true → ∀ b : ℚ, p.currentBid = some b →
      lookupA (updatedBids g.gameState) pid = some b)
    ∧ (p.isTimedOut = false → (p.hasSubmittedBid = false ∨ p.currentBid = none) →
      lookupA (updatedBids g.gameState) pid = some g.gameState.maxBid)
    ∧ (p.isTimedOut = true → ∀ b : ℚ, p.currentBid = some b →
      lookupA (updatedBids g.gameState) pid = some b)
    ∧ (p.isTimedOut = true → p.currentBid = none →
      lookupA (updatedBids g.gameState) pid = some g.gameState.maxBid)
    ∧ (p.isTimedOut = true →
      (playerOf (settleGame cs cp g now) pid).map Player.hasSubmittedBid
        = some p.hasSubmittedBid) := by
  have hlook := lookupA_updatedBids g.gameState ps pid p hps hnd hp
  refine ⟨?_, ?_, ?_, ?_, ?_⟩
  · intro hpt hsub b hb
    rw [hlook]
    simp [resolvedBidOf, resolveActiveBid, hpt, hsub, hb]
  · intro hpt hinv
    rw [hlook]
    rcases hinv with hsub | hb
    · simp [resolvedBidOf, resolveActiveBid, hpt, hsub]
    · simp [resolvedBidOf, resolveActiveBid, hpt, hb]
  · intro hpt b hb
    rw [hlook]
    simp [resolvedBidOf, hpt, hb]
  · intro hpt hb
    rw [hlook]
    simp [resolvedBidOf, hpt, hb]
  · intro hpt
    rw [playerOf_settleGame cs cp g now ps pid p hps hnd hp]
    simp [hpt]

/-- C3 witness: on gC3, the timed-out player b keeps bid 60 and flag true,
timed-out player c without a numeric bid resolves to maxBid 100, and the
active submitter a resolves to 50. -/
theorem resolved_bid_rule_witness :
    lookupA (updatedBids gC3.gameState) "a" = some 50
    ∧ lookupA (updatedBids gC3.gameState) "b" = some 60
    ∧ lookupA (updatedBids gC3.gameState) "c" = some 100
    ∧ (playerOf (settleGame csId cpId gC3 2) "b").map Player.hasSubmittedBid = some true :=
  have ha := resolved_bid_rule csId cpId gC3 2 psC3 "a" pSub50 rfl (by decide) rfl
  have hb := resolved_bid_rule csId cpId gC3 2 psC3 "b" pTimed60 rfl (by decide) rfl
  have hc := resolved_bid_rule csId cpId gC3 2 psC3 "c" (mkPlayer none false true) rfl
    (by decide) rfl
  ⟨ha.1 rfl rfl 50 rfl, hb.2.2.1 rfl 60 rfl, hc.2.2.2.1 rfl rfl, hb.2.2.2.2 rfl⟩

/-- C1 fixture: an active non-submitter (so the first write visibly
changes state) plus an active submitter. -/
def psC1 : List (String × Player) := [("a", pNoBid), ("b", pSub60)]

def gC1 : Game := mkGame { baseGS with players := some psC1 }

/-- C1 counterexample: one handleAutopilot settlement performs two store
updates, not one, and the first update already changes the game document —
so a failure in the second (advance) step leaves a partial settlement
written, refuting single-atomic-write-or-nothing. -/
theorem settlement_single_write_cx :
    (handleAutopilotBatches csId cpId gC1.gameState 5).length = 2
    ∧ applyEntries gC1 (processGameRoundUpdates gC1.gameState) ≠ gC1 := by
  refine ⟨rfl, ?_⟩
  decide

/-- C1 (amended): handleAutopilot issues exactly two sequential multi-path
updates — processGameRound's bid/flag write, then advanceGameState's
history/advance write, each individually atomic. The settled state is the
second batch applied after the first, the first batch touches only player
bid and flag paths, and after the first batch alone a non-submitting active
player's currentBid is already rewritten to maxBid, so the intermediate
document differs from the original whenever that player had no stored
maxBid bid (the state a failure of the advance step would leave behind). -/
theorem handleAutopilot_two_sequential_updates (cs : CalcShares) (cp : CalcProfits)
    (g : Game) (now : Nat) (ps : List (String × Player)) (pid : String) (p : Player)
    (hps : g.gameState.players = some ps) (hnd : (ps.map Prod.fst).Nodup)
    (hp : lookupA ps pid = some p) (hact : p.isTimedOut = false)
    (hsub : p.hasSubmittedBid = false) :
    (handleAutopilotBatches cs cp g.gameState now).length = 2
    ∧ settleGame cs cp g now
        = applyEntries (applyEntries g (processGameRoundUpdates g.gameState))
            (advanceGameStateUpdates g.gameState (roundResultOf cs cp g.gameState now) now)
    ∧ (∀ e ∈ processGameRoundUpdates g.gameState,
        kindOf e = PathKind.playerBid ∨ kindOf e = PathKind.playerSubmitted)
    ∧ playerOf (applyEntries g (processGameRoundUpdates g.gameState)) pid
        = some { p with currentBid := some g.gameState.maxBid, hasSubmittedBid := false }
    ∧ (p.currentBid ≠ some g.gameState.maxBid →
        applyEntries g (processGameRoundUpdates g.gameState) ≠ g) := by
  have hmid : playerOf (applyEntries g (processGameRoundUpdates g.gameState)) pid
      = some { p with currentBid := some g.gameState.maxBid, hasSubmittedBid := false } := by
    have hop : playerOf g pid = some p := by simp [playerOf, hps, hp]
    rw [playerOf_applyEntries, hop,
      stepFold_processGameRoundUpdates g.gameState ps pid p hps hnd hp]
    simp [hact, hsub]
  refine ⟨rfl, rfl, kinds_processGameRoundUpdates g.gameState, hmid, ?_⟩
  intro hne heq
  rw [heq] at hmid
  have hop : playerOf g pid = some p := by simp [playerOf, hps, hp]
  rw [hop] at hmid
  have hfields : p.currentBid = some g.gameState.maxBid := by
    have := congrArg (fun o => o.map Player.currentBid) hmid
    simpa using this
  exact hne hfields

/-- C1 witness: on gC1 the two-batch shape and the visible intermediate
write are concrete. -/
theorem handleAutopilot_two_sequential_updates_witness :
    (handleAutopilotBatches csId cpId gC1.gameState 5).length = 2
    ∧ playerOf (applyEntries gC1 (processGameRoundUpdates gC1.gameState)) "a"
        = some { pNoBid with currentBid := some (100 : ℚ), hasSubmittedBid := false } :=
  have h := handleAutopilot_two_sequential_updates csId cpId gC1 5 psC1 "a" pNoBid rfl
    (by decide) rfl rfl rfl
  ⟨h.1, h.2.2.2.1⟩

/-- C7 counterexample fixture: a due round whose settlement lands exactly
on the final round number (currentRound becomes 3 of 3, not ended). -/
def gC7 : Game := mkGame
  { baseGS with
    currentRound := 2
    roundTimeLimit := 1
    roundStartTime := some 1
    players := some psAB }

/-- C7 counterexample: the scheduler settles the due game, the settled
state is not ended, yet the tick performs no second round start — the
chain condition also requires currentRound < totalRounds, refuting the
claim that a non-ended re-read state always chains. -/
theorem scheduler_chain_cx :
    shouldProcessRound gC7.gameState 999999 = true
    ∧ (settleGame csId cpId gC7 999999).gameState.isEnded = false
    ∧ processGameTick csId cpId gC7 999999 = [TickAction.settle] := by
  refine ⟨by decide, by decide, ?_⟩
  decide

/-- C7 (amended): on a due tick, the Round Starter is invoked again in the
same tick if and only if the re-read (settled) state is not ended AND its
currentRound is still below totalRounds; a settled state that is not ended
but already sits at totalRounds does not chain. -/
theorem scheduler_chain_condition (cs : CalcShares) (cp : CalcProfits) (g : Game)
    (now : Nat)
    (hen : (g.gameState.autopilot.map (fun a => a.enabled)).getD false = true)
    (hstart : g.gameState.hasGameStarted = true)
    (hnoend : g.gameState.isEnded = false)
    (ht : truthyTime g.gameState.roundStartTime = true)
    (hdue : shouldProcessRound g.gameState now = true) :
    (processGameTick cs cp g now = [TickAction.settle, TickAction.startRound]
      ↔ ((settleGame cs cp g now).gameState.isEnded = false
         ∧ (settleGame cs cp g now).gameState.currentRound
             < (settleGame cs cp g now).gameState.totalRounds))
    ∧ ((settleGame cs cp g now).gameState.isEnded = false →
        ¬ (settleGame cs cp g now).gameState.currentRound
            < (settleGame cs cp g now).gameState.totalRounds →
        processGameTick cs cp g now = [TickAction.settle]) := by
  unfold processGameTick
  rw [if_neg (by simp [hen]), if_pos (by simp [hstart, hnoend]), if_neg (by simp [ht]),
    if_pos hdue]
  dsimp only
  constructor
  · by_cases hc : (!(settleGame cs cp g now).gameState.isEnded
        && decide ((settleGame cs cp g now).gameState.currentRound
            < (settleGame cs cp g now).gameState.totalRounds)) = true
    · rw [if_pos hc]
      rw [Bool.and_eq_true, Bool.not_eq_true', decide_eq_true_eq] at hc
      simp [hc.1, hc.2]
    · rw [if_neg hc]
      constructor
      · intro habs
        exact absurd habs (by simp)
      · rintro ⟨hE, hLT⟩
        exact absurd (by simp [hE, hLT]) hc
  · intro hE hLT
    rw [if_neg (by simp [hLT])]

/-- C7 witness fixture: a due round in the middle of the game. -/
def gC7w : Game := mkGame
  { baseGS with
    roundTimeLimit := 1
    roundStartTime := some 1
    players := some psAB }

/-- C7 witness: a due mid-game tick settles and chains into the next round
within the same tick. -/
theorem scheduler_chain_condition_witness :
    processGameTick csId cpId gC7w 999999 = [TickAction.settle, TickAction.startRound] :=
  ((scheduler_chain_condition csId cpId gC7w 999999 rfl rfl rfl (by decide)
      (by decide)).1).mpr (by decide)

theorem valuesSum_bumpFirst (acc : List (String × ℚ)) (pid : String) (v : ℚ) :
    valuesSum (bumpFirst acc pid v) = valuesSum acc + v := by
  induction acc with
  | nil => simp [bumpFirst, valuesSum]
  | cons kv rest ih =>
    by_cases h : kv.1 = pid
    · simp only [bumpFirst, if_pos h, valuesSum, List.map_cons, List.sum_cons]
      ring
    · simp only [bumpFirst, if_neg h, valuesSum, List.map_cons, List.sum_cons]
      rw [show (List.map (fun kv => kv.2) (bumpFirst rest pid v)).sum
          = valuesSum (bumpFirst rest pid v) from rfl, ih]
      rw [show (List.map (fun kv => kv.2) rest).sum = valuesSum rest from rfl]
      ring

theorem valuesSum_profitsFoldl (l : List (String × ℚ)) (acc : List (String × ℚ)) :
    valuesSum (l.foldl (fun a kv => bumpFirst a kv.1 kv.2) acc)
      = valuesSum acc + valuesSum l := by
  induction l generalizing acc with
  | nil => simp [valuesSum]
  | cons kv rest ih =>
    rw [List.foldl_cons, ih, valuesSum_bumpFirst]
    simp only [valuesSum, List.map_cons, List.sum_cons]
    ring

/-- The second variant's allProfits fold totals to the nested sum of all
profits over all rounds. -/
theorem valuesSum_allProfitsOf (rounds : List RoundResult) :
    valuesSum (allProfitsOf rounds) = (rounds.map (fun r => valuesSum r.profits)).sum := by
  unfold allProfitsOf
  suffices h : ∀ acc, valuesSum (rounds.foldl
      (fun acc r => r.profits.foldl (fun a kv => bumpFirst a kv.1 kv.2) acc) acc)
      = valuesSum acc + (rounds.map (fun r => valuesSum r.profits)).sum by
    simpa [valuesSum] using h []
  intro acc
  induction rounds generalizing acc with
  | nil => simp [valuesSum]
  | cons r rest ih =>
    rw [List.foldl_cons, ih, valuesSum_profitsFoldl]
    simp only [List.map_cons, List.sum_cons]
    ring

/-- The flattened market-share sum equals the nested per-round sums. -/
theorem flatMap_shares_sum (rounds : List RoundResult) :
    (rounds.flatMap (fun r => r.marketShares.map (fun kv => kv.2))).sum
      = (rounds.map (fun r => valuesSum r.marketShares)).sum := by
  induction rounds with
  | nil => rfl
  | cons r rest ih =>
    rw [List.flatMap_cons, List.sum_append, ih]
    simp [valuesSum]

/-- The final aggregate fields written by the second settlement variant on
a game-ending round. -/
theorem settleGame2_end_stats (cs : CalcShares) (cp : CalcProfits) (g : Game) (now : Nat)
    (hend : g.gameState.currentRound ≥ g.gameState.totalRounds) :
    (settleGame2 cs cp g now).gameState.totalProfit
      = valuesSum (allProfitsOf (historyValues g.gameState
          ++ [roundResult2Of cs cp g.gameState now]))
    ∧ (settleGame2 cs cp g now).gameState.averageMarketShare
      = averageMarketShareOf (historyValues g.gameState
          ++ [roundResult2Of cs cp g.gameState now]) (playersOf g.gameState).length := by
  unfold settleGame2
  simp only [processGameRound2Updates]
  rw [if_pos hend, applyEntries_append, applyEntries_append]
  constructor <;> simp [applyEntry]

/-- C5 (amended): on a game-ending settlement the same update batch writes
totalProfit = the sum over all rounds (history plus this round) of the sum
over all players of profit, and averageMarketShare = the flattened share
sum divided by (number of rounds present × playerCount); the divisor equals
totalRounds × playerCount exactly when the history holds totalRounds − 1
prior rounds. -/
theorem endgame_aggregate_stats (cs : CalcShares) (cp : CalcProfits) (g : Game)
    (now : Nat) (hend : g.gameState.totalRounds ≤ g.gameState.currentRound) :
    (settleGame2 cs cp g now).gameState.totalProfit
      = ((historyValues g.gameState ++ [roundResult2Of cs cp g.gameState now]).map
          (fun r => valuesSum r.profits)).sum
    ∧ (g.gameState.roundHistory.length + 1 = g.gameState.totalRounds →
       (playersOf g.gameState).length ≠ 0 →
       (settleGame2 cs cp g now).gameState.averageMarketShare
         = ((historyValues g.gameState ++ [roundResult2Of cs cp g.gameState now]).map
             (fun r => valuesSum r.marketShares)).sum
           / ((g.gameState.totalRounds * (playersOf g.gameState).length : Nat) : ℚ)) := by
  obtain ⟨h1, h2⟩ := settleGame2_end_stats cs cp g now hend
  constructor
  · rw [h1, valuesSum_allProfitsOf]
  · intro hlen hcnt
    rw [h2]
    unfold averageMarketShareOf
    have hLen2 : (historyValues g.gameState
        ++ [roundResult2Of cs cp g.gameState now]).length = g.gameState.totalRounds := by
      simp only [List.length_append, List.length_cons, List.length_nil, historyValues,
        List.length_map]
      omega
    dsimp only
    rw [hLen2, if_neg (Nat.mul_ne_zero (by omega) hcnt), flatMap_shares_sum]

/-- C5 counterexample fixture: the game ends with currentRound = 2 past
totalRounds = 1, with one prior round already in history and one player. -/
def r0C5 : RoundResult :=
  { round := 1, bids := [("a", 100)], marketShares := [("a", 1)],
    profits := [("a", 0)], timestamp := 0 }

def gC5 : Game := mkGame
  { baseGS with
    currentRound := 2
    totalRounds := 1
    players := some [("a", pNoBid)]
    roundHistory := [(0, r0C5)] }

/-- C5 counterexample: on gC5 the share sum over all rounds is 101 and the
claim's divisor totalRounds × playerCount is 1, so the claim demands
averageMarketShare = 101; the code divides by rounds-present × playerCount
= 2 and writes 101/2. -/
theorem endgame_average_share_cx :
    gC5.gameState.totalRounds ≤ gC5.gameState.currentRound
    ∧ gC5.gameState.totalRounds * (playersOf gC5.gameState).length = 1
    ∧ ((historyValues gC5.gameState ++ [roundResult2Of csId cpId gC5.gameState 3]).map
        (fun r => valuesSum r.marketShares)).sum = 101
    ∧ (settleGame2 csId cpId gC5 3).gameState.averageMarketShare = 101 / 2
    ∧ ((101 : ℚ) / 2) ≠ 101 / 1 := by
  have h := settleGame2_end_stats csId cpId gC5 3 (by decide)
  refine ⟨by decide, by decide, ?_, ?_, by norm_num⟩
  · simp [historyValues, gC5, mkGame, baseGS, r0C5, roundResult2Of, updatedBids2, playersOf,
      csId, valuesSum, pNoBid, mkPlayer, resolveActiveBid]
    norm_num
  · rw [h.2]
    simp [averageMarketShareOf, historyValues, gC5, mkGame, baseGS, r0C5, roundResult2Of,
      updatedBids2, playersOf, csId, valuesSum, pNoBid, mkPlayer, resolveActiveBid]
    norm_num

/-- C5 witness fixture: a one-round game ending normally (empty history,
two players). -/
def gC5w : Game := mkGame { baseGS with totalRounds := 1, players := some psAB }

/-- C5 witness: on gC5w the aggregate equalities hold with the totalRounds
divisor. -/
theorem endgame_aggregate_stats_witness :
    (settleGame2 csId cpId gC5w 3).gameState.totalProfit
      = ((historyValues gC5w.gameState ++ [roundResult2Of csId cpId gC5w.gameState 3]).map
          (fun r => valuesSum r.profits)).sum
    ∧ (settleGame2 csId cpId gC5w 3).gameState.averageMarketShare
      = ((historyValues gC5w.gameState ++ [roundResult2Of csId cpId gC5w.gameState 3]).map
          (fun r => valuesSum r.marketShares)).sum
        / ((gC5w.gameState.totalRounds * (playersOf gC5w.gameState).length : Nat) : ℚ) :=
  have h := endgame_aggregate_stats csId cpId gC5w 3 (by decide)
  ⟨h.1, h.2 (by decide) (by decide)⟩

theorem sum_snd_map_pair {κ α β : Type} [AddCommMonoid β] (l : List (κ × α))
    (f : κ × α → β) :
    ((l.map (fun kv => (kv.1, f kv))).map (fun kv => kv.2)).sum = (l.map f).sum := by
  rw [List.map_map]
  rfl

theorem sum_map_div_real {α : Type} (l : List α) (f : α → ℝ) (c : ℝ) :
    (l.map (fun x => f x / c)).sum = (l.map f).sum / c := by
  induction l with
  | nil => simp
  | cons a rest ih => simp [ih, add_div]

theorem sum_map_const_real {α : Type} (l : List α) (f : α → ℝ) (c : ℝ)
    (h : ∀ x ∈ l, f x = c) : (l.map f).sum = (l.length : ℝ) * c := by
  induction l with
  | nil => simp
  | cons a rest ih =>
    have ha : f a = c := h a (List.mem_cons_self a rest)
    have hrest := ih (fun x hx => h x (List.mem_cons_of_mem a hx))
    simp only [List.map_cons, List.sum_cons, List.length_cons, hrest, ha]
    push_cast
    ring

/-- C8 (spec-modelled Market Model): for every non-empty bid map the logit
shares sum to 1 exactly (hence within 1e-9); a single player gets share 1;
identical bids give every player share 1/n. -/
theorem marketShares_sum_to_one (alpha : ℝ) (bids : List (String × ℝ)) (h : bids ≠ []) :
    |((calculateAllMarketShares alpha bids).map (fun kv => kv.2)).sum - 1| ≤ 1 / 1000000000
    ∧ (∀ pid b, bids = [(pid, b)] → calculateAllMarketShares alpha bids = [(pid, 1)])
    ∧ (∀ c : ℝ, (∀ kv ∈ bids, kv.2 = c) →
       ∀ kv ∈ calculateAllMarketShares alpha bids, kv.2 = 1 / (bids.length : ℝ)) := by
  have htot : 0 < (bids.map (fun kv => Real.exp (-(alpha * kv.2)))).sum := by
    apply List.sum_pos
    · intro x hx
      rcases List.mem_map.mp hx with ⟨kv, _, rfl⟩
      exact Real.exp_pos _
    · simpa using h
  refine ⟨?_, ?_, ?_⟩
  · have hsum1 : ((calculateAllMarketShares alpha bids).map (fun kv => kv.2)).sum
        = (bids.map (fun kv => Real.exp (-(alpha * kv.2))
            / (bids.map (fun kv2 => Real.exp (-(alpha * kv2.2)))).sum)).sum := by
      unfold calculateAllMarketShares
      exact sum_snd_map_pair bids _
    rw [hsum1, sum_map_div_real, div_self (ne_of_gt htot)]
    norm_num
  · rintro pid b rfl
    unfold calculateAllMarketShares
    simp [div_self (Real.exp_ne_zero (-(alpha * b)))]
  · intro c hc kv hkv
    unfold calculateAllMarketShares at hkv
    dsimp only at hkv
    rcases List.mem_map.mp hkv with ⟨kv0, hkv0, rfl⟩
    dsimp only
    have htotc : (bids.map (fun kv => Real.exp (-(alpha * kv.2)))).sum
        = (bids.length : ℝ) * Real.exp (-(alpha * c)) :=
      sum_map_const_real bids _ _ (fun x hx => by rw [hc x hx])
    rw [hc kv0 hkv0, htotc,
      show Real.exp (-(alpha * c)) / ((bids.length : ℝ) * Real.exp (-(alpha * c)))
        = (Real.exp (-(alpha * c)) * 1)
          / (Real.exp (-(alpha * c)) * (bids.length : ℝ)) by ring,
      mul_div_mul_left 1 (bids.length : ℝ) (Real.exp_ne_zero _)]

/-- C8 witness: the properties at the concrete one-player bid map
[(a, 2)] with alpha = 1. -/
theorem marketShares_sum_to_one_witness :
    ([(("a" : String), (2 : ℝ))] ≠ [])
    ∧ (|((calculateAllMarketShares 1 [(("a" : String), (2 : ℝ))]).map
          (fun kv => kv.2)).sum - 1| ≤ 1 / 1000000000
       ∧ (∀ pid b, [(("a" : String), (2 : ℝ))] = [(pid, b)] →
            calculateAllMarketShares 1 [(("a" : String), (2 : ℝ))] = [(pid, 1)])
       ∧ (∀ c : ℝ, (∀ kv ∈ [(("a" : String), (2 : ℝ))], kv.2 = c) →
            ∀ kv ∈ calculateAllMarketShares 1 [(("a" : String), (2 : ℝ))],
              kv.2 = 1 / (([(("a" : String), (2 : ℝ))].length : ℝ)))) :=
  ⟨by simp, marketShares_sum_to_one 1 [(("a" : String), (2 : ℝ))] (by simp)⟩

/-- C9 counterexample: a non-admin toggle attempt fails with the
authorization error but writes no Event Monitor entry at all — the claim
that every attempt is logged is false. -/
theorem toggle_unlogged_failure_cx :
    toggleAutopilotRun false (some "g1") true true 5
      = (Except.error ToggleError.notAdmin, [], []) := rfl

/-- C9 (amended): toggleAutopilot rejects a non-admin caller with an
authorization error and a missing/empty gameId with a validation error, in
both cases before any write or any Event Monitor entry; an authorized,
well-formed attempt writes autopilot = (enabled, now-or-null) and logs
success, or logs failure and errors when the store write fails — so an
entry is logged exactly for attempts that pass the two checks. -/
theorem toggleAutopilot_spec (isAdmin : Bool) (gameId : Option String)
    (enabled storeOk : Bool) (now : Nat) :
    (isAdmin = false → toggleAutopilotRun isAdmin gameId enabled storeOk now
        = (Except.error ToggleError.notAdmin, [], []))
    ∧ (isAdmin = true → (gameId = none ∨ gameId = some "") →
        toggleAutopilotRun isAdmin gameId enabled storeOk now
          = (Except.error ToggleError.noGameId, [], []))
    ∧ (∀ gid, isAdmin = true → gameId = some gid → gid ≠ "" → storeOk = true →
        toggleAutopilotRun isAdmin gameId enabled storeOk now
          = (Except.ok ("Autopilot " ++ (if enabled then "enabled" else "disabled")
                ++ " for game " ++ gid),
             [{ gameId := gid, action := "toggle", logStatus := "success" }],
             [(gid, { enabled := enabled,
                      lastUpdateTime := if enabled then some now else none })]))
    ∧ (∀ gid, isAdmin = true → gameId = some gid → gid ≠ "" → storeOk = false →
        toggleAutopilotRun isAdmin gameId enabled storeOk now
          = (Except.error ToggleError.toggleFailed,
             [{ gameId := gid, action := "toggle", logStatus := "failure" }], []))
    ∧ ((toggleAutopilotRun isAdmin gameId enabled storeOk now).2.1 ≠ [] ↔
        (isAdmin = true ∧ ∃ gid, gameId = some gid ∧ gid ≠ "")) := by
  refine ⟨?_, ?_, ?_, ?_, ?_⟩
  · intro h
    simp [toggleAutopilotRun, h]
  · rintro h (h2 | h2) <;> simp [toggleAutopilotRun, h, h2]
  · intro gid h h2 h3 h4
    simp [toggleAutopilotRun, h, h2, h3, h4]
  · intro gid h h2 h3 h4
    simp [toggleAutopilotRun, h, h2, h3, h4]
  · cases hA : isAdmin
    · simp [toggleAutopilotRun]
    · cases hG : gameId with
      | none => simp [toggleAutopilotRun]
      | some gid =>
        by_cases hg : gid = ""
        · simp [toggleAutopilotRun, hg]
        · cases hS : storeOk <;> simp [toggleAutopilotRun, hg]

/-- C9 witness: an authorized toggle on game g1 succeeds, is logged, and
stamps lastUpdateTime. -/
theorem toggleAutopilot_spec_witness :
    toggleAutopilotRun true (some "g1") true true 7
      = (Except.ok "Autopilot enabled for game g1",
         [{ gameId := "g1", action := "toggle", logStatus := "success" }],
         [("g1", { enabled := true, lastUpdateTime := some 7 })]) :=
  (toggleAutopilot_spec true (some "g1") true true 7).2.2.1 "g1" rfl rfl (by decide) rfl

end Reapbid
